import Mathlib

/-!
Verification development for the Swiss job-aggregation ingestion core.

Shallow embedding of the Python services under backend/services and
backend/utils into Lean 4.  Strings are modelled as lists of characters,
Python floats as rationals (all constants in play are decimal), machine
time as an explicit rational parameter passed to stateful operations, and
the database as an explicit list of rows in table order.  Database errors
and exceptions are modelled with Except or explicit outcome types.

Modelling notes:
- Character classes: the regex word class is modelled as ASCII
  alphanumerics, underscore, and all code points at or above 128 (Python
  uses full Unicode categories; the difference only concerns exotic
  non-ASCII punctuation).  Python str.lower is modelled by the ASCII
  Char.toLower.
- The Python set literal SENIORITY_STRIP is iterated in the textual order
  of the source file (CPython set order is hash dependent); all proved
  statements are insensitive to that order.
- Recursive definitions are structurally recursive so that every
  definition evaluates on concrete inputs.
-/

namespace SwissJob

/-! ## Python string primitives -/

/-- Python whitespace characters recognised by str.strip and the regex
space class. -/
def pyIsSpace (c : Char) : Bool :=
  c = ' ' || c = '\t' || c = '\n' || c = '\r' || c = '\x0b' || c = '\x0c'

/-- Model of the regex word class: ASCII alphanumerics, underscore, and
everything beyond ASCII. -/
def isWordChar (c : Char) : Bool :=
  c.isAlphanum || c = '_' || decide (c.val ≥ 128)

/-- Python str.lower, modelled on ASCII letters. -/
def pyLower (s : List Char) : List Char := s.map Char.toLower

/-- Python str.upper, modelled on ASCII letters. -/
def pyUpper (s : List Char) : List Char := s.map Char.toUpper

/-- Python str.lstrip. -/
def lstripWs (s : List Char) : List Char := s.dropWhile pyIsSpace

/-- Python str.rstrip. -/
def rstripWs (s : List Char) : List Char := (s.reverse.dropWhile pyIsSpace).reverse

/-- Python str.strip. -/
def pyStrip (s : List Char) : List Char := rstripWs (lstripWs s)

/-- Worker for str.replace.  While skip is positive the characters of a
just-replaced occurrence are consumed without output; at skip zero the
scanner tries to match w at the current position. -/
def pyReplaceAux (w r : List Char) : Nat → List Char → List Char
  | _, [] => []
  | skip + 1, _ :: t => pyReplaceAux w r skip t
  | 0, a :: t =>
    if w ≠ [] ∧ w.isPrefixOf (a :: t) then r ++ pyReplaceAux w r (w.length - 1) t
    else a :: pyReplaceAux w r 0 t

/-- Python str.replace: replace all non-overlapping occurrences of w by
r, scanning left to right. -/
def pyReplace (w r s : List Char) : List Char := pyReplaceAux w r 0 s

/-- Helper for splitting on whitespace runs; acc is the current token,
reversed. -/
def splitWsAux : List Char → List Char → List (List Char)
  | [], acc => if acc = [] then [] else [acc.reverse]
  | c :: t, acc =>
    if pyIsSpace c then
      (if acc = [] then splitWsAux t [] else acc.reverse :: splitWsAux t [])
    else splitWsAux t (c :: acc)

/-- Python str.split with no argument: split on whitespace runs, dropping
empty pieces. -/
def splitWs (s : List Char) : List (List Char) := splitWsAux s []

/-- Join tokens with a single space. -/
def joinTokens : List (List Char) → List Char
  | [] => []
  | [t] => t
  | t :: t2 :: ts => t ++ ' ' :: joinTokens (t2 :: ts)

/-- Model of replacing every whitespace run by a single space and then
stripping: the result is exactly the tokens joined by single spaces. -/
def collapseStrip (s : List Char) : List Char := joinTokens (splitWs s)

/-- Model of the punctuation rewrite: every character that is neither a
word character nor whitespace becomes a space. -/
def punctSub (s : List Char) : List Char :=
  s.map (fun c => if !isWordChar c && !pyIsSpace c then ' ' else c)

/-- Every character of the string is whitespace. -/
def allSpace (s : List Char) : Bool := s.all pyIsSpace

/-! ## MD5 (hashlib.md5, used by the hash helpers) -/

/-- Reduce modulo 2 to the 32. -/
def m32 (n : Nat) : Nat := n % 4294967296

/-- Left rotation of a 32-bit word. -/
def rotl32 (x s : Nat) : Nat := m32 (x <<< s) + (x >>> (32 - s))

/-- Bitwise complement within 32 bits (argument below 2 to the 32). -/
def not32 (x : Nat) : Nat := 4294967295 - x

/-- Per-round sine-derived constants of MD5. -/
def md5K : List Nat :=
  [0xd76aa478, 0xe8c7b756, 0x242070db, 0xc1bdceee,
   0xf57c0faf, 0x4787c62a, 0xa8304613, 0xfd469501,
   0x698098d8, 0x8b44f7af, 0xffff5bb1, 0x895cd7be,
   0x6b901122, 0xfd987193, 0xa679438e, 0x49b40821,
   0xf61e2562, 0xc040b340, 0x265e5a51, 0xe9b6c7aa,
   0xd62f105d, 0x02441453, 0xd8a1e681, 0xe7d3fbc8,
   0x21e1cde6, 0xc33707d6, 0xf4d50d87, 0x455a14ed,
   0xa9e3e905, 0xfcefa3f8, 0x676f02d9, 0x8d2a4c8a,
   0xfffa3942, 0x8771f681, 0x6d9d6122, 0xfde5380c,
   0xa4beea44, 0x4bdecfa9, 0xf6bb4b60, 0xbebfbc70,
   0x289b7ec6, 0xeaa127fa, 0xd4ef3085, 0x04881d05,
   0xd9d4d039, 0xe6db99e5, 0x1fa27cf8, 0xc4ac5665,
   0xf4292244, 0x432aff97, 0xab9423a7, 0xfc93a039,
   0x655b59c3, 0x8f0ccc92, 0xffeff47d, 0x85845dd1,
   0x6fa87e4f, 0xfe2ce6e0, 0xa3014314, 0x4e0811a1,
   0xf7537e82, 0xbd3af235, 0x2ad7d2bb, 0xeb86d391]

/-- Per-round shift amounts of MD5. -/
def md5S : List Nat :=
  [7, 12, 17, 22, 7, 12, 17, 22, 7, 12, 17, 22, 7, 12, 17, 22,
   5, 9, 14, 20, 5, 9, 14, 20, 5, 9, 14, 20, 5, 9, 14, 20,
   4, 11, 16, 23, 4, 11, 16, 23, 4, 11, 16, 23, 4, 11, 16, 23,
   6, 10, 15, 21, 6, 10, 15, 21, 6, 10, 15, 21, 6, 10, 15, 21]

/-- Little-endian 32-bit word g of a 64-byte block. -/
def md5WordAt (block : List Nat) (g : Nat) : Nat :=
  block.getD (4 * g) 0 + 256 * block.getD (4 * g + 1) 0 +
    65536 * block.getD (4 * g + 2) 0 + 16777216 * block.getD (4 * g + 3) 0

/-- One of the 64 MD5 rounds. -/
def md5Step (block : List Nat) (st : Nat × Nat × Nat × Nat) (i : Nat) :
    Nat × Nat × Nat × Nat :=
  let a := st.1
  let b := st.2.1
  let c := st.2.2.1
  let d := st.2.2.2
  let fg : Nat × Nat :=
    if i < 16 then ((b &&& c) ||| (not32 b &&& d), i)
    else if i < 32 then ((d &&& b) ||| (not32 d &&& c), (5 * i + 1) % 16)
    else if i < 48 then (b ^^^ c ^^^ d, (3 * i + 5) % 16)
    else (c ^^^ (b ||| not32 d), (7 * i) % 16)
  (d, m32 (b + rotl32 (m32 (a + fg.1 + md5K.getD i 0 + md5WordAt block fg.2))
    (md5S.getD i 0)), b, c)

/-- Process one 64-byte block. -/
def md5Block (st : Nat × Nat × Nat × Nat) (block : List Nat) :
    Nat × Nat × Nat × Nat :=
  let r := (List.range 64).foldl (md5Step block) st
  (m32 (st.1 + r.1), m32 (st.2.1 + r.2.1), m32 (st.2.2.1 + r.2.2.1),
   m32 (st.2.2.2 + r.2.2.2))

/-- Split a byte list into 64-byte chunks; the fuel bounds the number of
chunks and any value at least the list length is enough. -/
def chunks64 : Nat → List Nat → List (List Nat)
  | _, [] => []
  | 0, l => [l]
  | fuel + 1, a :: t => ((a :: t).take 64) :: chunks64 fuel (t.drop 63)

/-- Eight little-endian bytes of a number. -/
def le64 (n : Nat) : List Nat :=
  [n % 256, n / 256 % 256, n / 65536 % 256, n / 16777216 % 256,
   n / 4294967296 % 256, n / 1099511627776 % 256,
   n / 281474976710656 % 256, n / 72057594037927936 % 256]

/-- Four little-endian bytes of a 32-bit word. -/
def le32 (n : Nat) : List Nat :=
  [n % 256, n / 256 % 256, n / 65536 % 256, n / 16777216 % 256]

/-- MD5 padding: 0x80 then zeros to 56 mod 64, then the bit length in
eight little-endian bytes. -/
def md5Pad (msg : List Nat) : List Nat :=
  msg ++ 128 :: List.replicate ((119 - msg.length % 64) % 64) 0 ++ le64 (8 * msg.length)

/-- MD5 digest of a byte list. -/
def md5Bytes (msg : List Nat) : List Nat :=
  let padded := md5Pad msg
  let st := (chunks64 padded.length padded).foldl md5Block
    (0x67452301, 0xefcdab89, 0x98badcfe, 0x10325476)
  le32 st.1 ++ le32 st.2.1 ++ le32 st.2.2.1 ++ le32 st.2.2.2

/-- Lowercase hex digit. -/
def hexChar (n : Nat) : Char :=
  if n < 10 then Char.ofNat (48 + n) else Char.ofNat (87 + n)

/-- UTF-8 bytes of one character (str.encode). -/
def utf8Char (c : Char) : List Nat :=
  let n := c.toNat
  if n < 128 then [n]
  else if n < 2048 then [192 + n / 64, 128 + n % 64]
  else if n < 65536 then [224 + n / 4096, 128 + (n / 64) % 64, 128 + n % 64]
  else [240 + n / 262144, 128 + (n / 4096) % 64, 128 + (n / 64) % 64, 128 + n % 64]

/-- UTF-8 encoding of a string. -/
def utf8Encode (s : List Char) : List Nat :=
  s.foldr (fun c acc => utf8Char c ++ acc) []

/-- Lowercase hexadecimal MD5 digest of the UTF-8 bytes of a string,
i.e. hashlib.md5(raw.encode()).hexdigest(). -/
def md5Hex (s : List Char) : List Char :=
  (md5Bytes (utf8Encode s)).foldr (fun b acc => hexChar (b / 16) :: hexChar (b % 16) :: acc) []

/-! ## Deduplicator normalization (backend/services/deduplicator.py) -/

/-- SENIORITY_STRIP of the source, as an ordered list (the Python set is
iterated here in the order of the file literal). -/
def seniorityStripList : List (List Char) :=
  ["senior".data, "junior".data, "lead".data, "head".data, "intern".data,
   "trainee".data, "sr.".data, "jr.".data, "sr".data, "jr".data,
   "(m/f/d)".data, "(m/w/d)".data, "(f/m/d)".data, "(w/m/d)".data,
   "(m/f/x)".data, "(w/m/x)".data, "(all genders)".data,
   "m/f/d".data, "m/w/d".data, "f/m/d".data, "w/m/d".data]

/-- COMPANY_SUFFIXES of the source. -/
def companySuffixList : List (List Char) :=
  ["ag".data, "gmbh".data, "sa".data, "sarl".data, "sàrl".data, "ltd".data,
   "inc".data, "corp".data, "se".data, "plc".data, "srl".data, "co".data,
   "llc".data, "pty".data, "bv".data, "nv".data]

/-- The replace loop of Deduplicator._normalize_title. -/
def stripSeniority (s : List Char) : List Char :=
  seniorityStripList.foldl (fun acc w => pyReplace w [' '] acc) s

/-- Deduplicator._normalize_title: lowercase and strip, replace every
seniority keyword by a space, turn punctuation into spaces, collapse
whitespace runs and strip. -/
def normalize_title (title : List Char) : List Char :=
  collapseStrip (punctSub (stripSeniority (pyStrip (pyLower title))))

/-- Deduplicator._normalize_company: lowercase and strip, turn
punctuation into spaces, drop legal-suffix words, rejoin with single
spaces (the final whitespace rewrite and strip of the source are
no-ops on the joined words but are kept). -/
def normalize_company (company : List Char) : List Char :=
  collapseStrip (joinTokens ((splitWs (punctSub (pyStrip (pyLower company)))).filter
    (fun w => !companySuffixList.contains w)))

/-- Deduplicator.compute_fuzzy_hash: md5 of norm_title, a pipe, and
norm_company. -/
def compute_fuzzy_hash (title company : List Char) : List Char :=
  md5Hex (normalize_title title ++ '|' :: normalize_company company)

/-- BaseJobProvider.compute_hash (job_service.py): md5 of the stripped
lowercased title and company and the stripped url, pipe separated. -/
def compute_hash (title company url : List Char) : List Char :=
  md5Hex (pyLower (pyStrip title) ++ '|' :: (pyLower (pyStrip company) ++ '|' :: pyStrip url))

/-- The gender markers of the C7 claim, with a separating space. -/
def genderMarkers : List (List Char) :=
  [" (m/f/d)".data, " (m/w/d)".data, " (all genders)".data]

/-- The legal suffixes of the C7 claim, with a separating space. -/
def legalSuffixes : List (List Char) := [" AG".data, " GmbH".data, " Ltd".data]

/-- No nonempty proper suffix of w is a prefix of tail: an occurrence of
w can never start strictly before tail and continue into it. -/
def NoSpanP (w tail : List Char) : Prop :=
  ∀ j, j < w.length → 0 < j → ¬ (w.drop j <+: tail)

instance (w tail : List Char) : Decidable (NoSpanP w tail) := by
  unfold NoSpanP
  infer_instance

/-- Each word of ws spans nowhere across the boundary before tail, and
this keeps holding while the earlier words of the replace fold rewrite
tail. -/
def DistribP : List (List Char) → List Char → Prop
  | [], _ => True
  | w :: ws, tail => NoSpanP w tail ∧ DistribP ws (pyReplace w [' '] tail)

instance instDecDistribP : (ws : List (List Char)) → (tail : List Char) →
    Decidable (DistribP ws tail)
  | [], _ => .isTrue True.intro
  | w :: ws, tail =>
    have : Decidable (DistribP ws (pyReplace w [' '] tail)) :=
      instDecDistribP ws (pyReplace w [' '] tail)
    inferInstanceAs (Decidable (NoSpanP w tail ∧ DistribP ws (pyReplace w [' '] tail)))

/-- w is nonempty and every suffix of w has a non-space character, so w
never matches inside an all-space string. -/
def goodWord (w : List Char) : Bool :=
  !w.isEmpty && (List.range w.length).all (fun j => (w.drop j).any (fun c => !pyIsSpace c))

/-- The part of normalize_title that follows lowering and stripping. -/
def titleRest (z : List Char) : List Char :=
  collapseStrip (punctSub (stripSeniority z))

/-- The part of normalize_company that follows lowering and stripping. -/
def companyRest (z : List Char) : List Char :=
  collapseStrip (joinTokens ((splitWs (punctSub z)).filter
    (fun w => !companySuffixList.contains w)))

/-! ## ComplianceEngine (backend/services/compliance.py) -/

/-- One row of the source_compliance table, restricted to the fields the
engine reads and writes. -/
structure SourceRow where
  is_allowed : Bool
  robots_txt_ok : Bool
  auto_disable_on_block : Bool
  consecutive_blocks : Nat
  last_blocked_at : Option Nat
deriving DecidableEq

/-- Block threshold constant from compliance.py. -/
def BLOCK_THRESHOLD : Nat := 3

/-- ComplianceEngine.can_scrape: the row lookup result is passed in; an
unknown source (none) yields false. -/
def can_scrape : Option SourceRow → Bool
  | none => false
  | some s => s.is_allowed && s.robots_txt_ok

/-- ComplianceEngine.report_block on a known source row: increment the
counter, stamp the time, and kill the switch at the threshold.  The
status code argument is carried but never read, exactly as in the
source. -/
def report_block (s : SourceRow) (_statusCode : Nat) (now : Nat) : SourceRow :=
  let s1 := { s with consecutive_blocks := s.consecutive_blocks + 1,
                     last_blocked_at := some now }
  if s1.auto_disable_on_block && decide (s1.consecutive_blocks ≥ BLOCK_THRESHOLD) then
    { s1 with is_allowed := false }
  else s1

/-- BaseScraper pre-check (scraper_engine.py): the compliance gate run
before any outbound request; a database error resolves to false. -/
def preCheck (dbResult : Except (List Char) (Option SourceRow)) : Bool :=
  match dbResult with
  | .error _ => false
  | .ok row => can_scrape row

/-! ## CircuitBreaker (backend/services/circuit_breaker.py) -/

inductive CircuitState where
  | closed
  | opened
  | halfOpen
deriving DecidableEq

/-- Circuit breaker mutable state.  Time is rational, passed explicitly
where the source reads the monotonic clock. -/
structure CBState where
  state : CircuitState
  failureCount : Nat
  lastFailureTime : ℚ
  successCount : Nat
deriving DecidableEq

/-- Initial circuit breaker state (constructor). -/
def cbInit : CBState := ⟨.closed, 0, 0, 0⟩

/-- The state property: reading it moves OPEN to HALF_OPEN once the
recovery timeout has elapsed since the last failure. -/
def cbStateProp (rt : ℚ) (cb : CBState) (now : ℚ) : CircuitState × CBState :=
  if cb.state = .opened ∧ now - cb.lastFailureTime ≥ rt then
    (.halfOpen, { cb with state := .halfOpen })
  else (cb.state, cb)

/-- CircuitBreaker._on_success. -/
def cbOnSuccess (cb : CBState) : CBState :=
  let cb1 := { cb with failureCount := 0, successCount := cb.successCount + 1 }
  if cb1.state = .halfOpen then { cb1 with state := .closed } else cb1

/-- CircuitBreaker._on_failure. -/
def cbOnFailure (ft : Nat) (cb : CBState) (now : ℚ) : CBState :=
  let cb1 := { cb with failureCount := cb.failureCount + 1, lastFailureTime := now }
  if cb1.failureCount ≥ ft then { cb1 with state := .opened } else cb1

/-- Result of CircuitBreaker.call: the wrapped operation ran and
succeeded, ran and raised (which counts as a failure), or was rejected
with a circuit-open error carrying a retry-after hint. -/
inductive CallResult where
  | ok
  | errRaised
  | circuitOpen (retryAfter : ℚ)
deriving DecidableEq

/-- CircuitBreaker.call.  The outcome of the wrapped operation is the
boolean succeeds; when the circuit is open the operation is not consulted
at all. -/
def cbCall (ft : Nat) (rt : ℚ) (cb : CBState) (now : ℚ) (succeeds : Bool) :
    CallResult × CBState :=
  let p := cbStateProp rt cb now
  if p.1 = .opened then
    (.circuitOpen (max (rt - (now - p.2.lastFailureTime)) 0), p.2)
  else if succeeds then (.ok, cbOnSuccess p.2)
  else (.errRaised, cbOnFailure ft p.2 now)

/-- State after n consecutive failing calls starting from the initial
state, the i-th call arriving at time tau i. -/
def cbFailN (ft : Nat) (rt : ℚ) (tau : Nat → ℚ) : Nat → CBState
  | 0 => cbInit
  | n + 1 => (cbCall ft rt (cbFailN ft rt tau n) (tau n) false).2

/-! ## JobRepository and Deduplicator lookup (job_repository.py, deduplicator.py) -/

/-- One row of the jobs table, restricted to the fields the repository
and the deduplication lookup read or write.  The database is a list of
rows in table order. -/
structure JobRow where
  hash : List Char
  source : List Char
  fuzzy_hash : Option (List Char)
  is_active : Bool
  duplicate_of : Option (List Char)
  first_seen_at : Nat
  last_seen_at : Nat
deriving DecidableEq

/-- The record handed to upsert_job.  Pipeline records carry no
is_active, duplicate_of or timestamps; those come from column defaults
on insert. -/
structure JobInsert where
  hash : List Char
  source : List Char
  fuzzy_hash : Option (List Char)
deriving DecidableEq

/-- Row created by a fresh insert: column defaults give is_active true,
duplicate_of null, and both timestamps now. -/
def newJobRow (rec : JobInsert) (now : Nat) : JobRow :=
  ⟨rec.hash, rec.source, rec.fuzzy_hash, true, none, now, now⟩

/-- JobRepository.upsert_job: INSERT with ON CONFLICT (hash) DO UPDATE
SET last_seen_at = now, is_active = true; returns true iff the hash did
not exist before (checked by a pre-read). -/
def upsert_job (db : List JobRow) (rec : JobInsert) (now : Nat) : Bool × List JobRow :=
  if db.any (fun r => r.hash == rec.hash) then
    (false, db.map (fun r =>
      if r.hash == rec.hash then { r with last_seen_at := now, is_active := true } else r))
  else (true, db ++ [newJobRow rec now])

/-- JobRepository.mark_duplicate: set duplicate_of and deactivate. -/
def mark_duplicate (db : List JobRow) (h c : List Char) : List JobRow :=
  db.map (fun r =>
    if r.hash == h then { r with duplicate_of := some c, is_active := false } else r)

/-- Invariant (iii) of the data model: a row with a duplicate_of pointer
is inactive. -/
def DupInactiveInv (db : List JobRow) : Prop :=
  ∀ r ∈ db, r.duplicate_of ≠ none → r.is_active = false

instance (db : List JobRow) : Decidable (DupInactiveInv db) := by
  unfold DupInactiveInv
  infer_instance

/-- Deduplicator.find_fuzzy_duplicate: first row in table order with the
given fuzzy hash, a different source, and is_active true (the SQL query
has LIMIT 1 and no ORDER BY). -/
def find_fuzzy_duplicate (db : List JobRow) (fh src : List Char) : Option (List Char) :=
  (db.find? (fun r => r.fuzzy_hash == some fh && r.source != src && r.is_active)).map
    (fun r => r.hash)

/-- Database state with a single deduplicated row, for the C1
counterexample. -/
def c1db : List JobRow := [⟨"a".data, "s1".data, some "f".data, false, some "c".data, 0, 0⟩]

/-- Repeated sighting of the deduplicated row, for the C1
counterexample. -/
def c1rec : JobInsert := ⟨"a".data, "s2".data, some "f".data⟩

/-- Clean database used by the C1 witness. -/
def c1dbW : List JobRow := [⟨"b".data, "s1".data, some "f".data, true, none, 0, 0⟩]

/-- Record upserted by the C1 witness. -/
def c1recW : JobInsert := ⟨"b".data, "s2".data, some "f".data⟩

/-- Two active rows with the same fuzzy hash from different sources; the
row that comes first in table order is strictly younger. -/
def c2db : List JobRow :=
  [⟨"a".data, "s1".data, some "f".data, true, none, 10, 10⟩,
   ⟨"b".data, "s2".data, some "f".data, true, none, 5, 5⟩]

/-! ## HTTP fetcher (backend/utils/http.py) -/

/-- Outcome of one HTTP attempt: a response (with status, body text and
an optional parsed JSON body, none standing for a JSON decode error), a
transient transport error (timeout or connect), or another HTTP error
raised by the client. -/
inductive FetchOutcome where
  | response (status : Nat) (text : List Char) (jsonBody : Option (List Char))
  | transportError
  | otherError
deriving DecidableEq

/-- DEFAULT_RETRY_STATUSES from http.py. -/
def RETRY_STATUSES : List Nat := [429, 500, 502, 503, 504]

/-- The integer power 2 ** attempt of the back-off formula, as a
rational. -/
def pow2Q : Nat → ℚ
  | 0 => 1
  | n + 1 => 2 * pow2Q n

/-- Loop body of fetch_with_retry: remaining counts the iterations left
of for attempt in range(max_retries + 1); the returned list is the trace
of back-off sleeps in order. -/
def fwrGo (outcomes : Nat → FetchOutcome) (maxRetries : Nat) (b d : ℚ) :
    Nat → Nat → Option (List Char) × List ℚ
  | 0, _ => (none, [])
  | remaining + 1, attempt =>
    match outcomes attempt with
    | .response st _text js =>
      if RETRY_STATUSES.contains st ∧ attempt < maxRetries then
        let rest := fwrGo outcomes maxRetries b d remaining (attempt + 1)
        (rest.1, min (b * pow2Q attempt) d :: rest.2)
      else if st ≠ 200 then
        if 400 ≤ st ∧ st < 500 ∧ st ≠ 429 then (none, [])
        else if attempt = maxRetries then (none, [])
        else fwrGo outcomes maxRetries b d remaining (attempt + 1)
      else
        match js with
        | some j => (some j, [])
        | none =>
          let rest := fwrGo outcomes maxRetries b d remaining (attempt + 1)
          if attempt < maxRetries then (rest.1, b * pow2Q attempt :: rest.2) else rest
    | _ =>
      let rest := fwrGo outcomes maxRetries b d remaining (attempt + 1)
      if attempt < maxRetries then (rest.1, b * pow2Q attempt :: rest.2) else rest

/-- fetch_with_retry: returns the parsed JSON or none, together with the
trace of back-off sleeps.  Retryable statuses wait
min(backoff * 2 ** attempt, max_delay); transport and parse errors wait
backoff * 2 ** attempt; non-429 client errors return immediately. -/
def fetch_with_retry (outcomes : Nat → FetchOutcome) (maxRetries : Nat)
    (backoff maxDelay : ℚ) : Option (List Char) × List ℚ :=
  fwrGo outcomes maxRetries backoff maxDelay (maxRetries + 1) 0

/-- Loop body of fetch_rss. -/
def rssGo (outcomes : Nat → FetchOutcome) (maxRetries : Nat) (b : ℚ) :
    Nat → Nat → Option (List Char) × List ℚ
  | 0, _ => (none, [])
  | remaining + 1, attempt =>
    match outcomes attempt with
    | .response st text _ =>
      if st = 200 then (some text, [])
      else
        let rest := rssGo outcomes maxRetries b remaining (attempt + 1)
        if attempt < maxRetries then (rest.1, b * pow2Q attempt :: rest.2) else rest
    | _ =>
      let rest := rssGo outcomes maxRetries b remaining (attempt + 1)
      if attempt < maxRetries then (rest.1, b * pow2Q attempt :: rest.2) else rest

/-- fetch_rss: returns the raw response text of the first 200 response,
none after exhausting the attempts; every non-200 status is retried
after a back-off sleep. -/
def fetch_rss (outcomes : Nat → FetchOutcome) (maxRetries : Nat) (backoff : ℚ) :
    Option (List Char) × List ℚ :=
  rssGo outcomes maxRetries backoff (maxRetries + 1) 0

/-- An attempt outcome that is a response with a retryable status. -/
def RetryOutcome (o : FetchOutcome) : Prop :=
  ∃ st text js, o = .response st text js ∧ st ∈ RETRY_STATUSES

/-- Attempt stream for the C9 counterexample: a 404 then a 200. -/
def c9outcomes : Nat → FetchOutcome := fun i =>
  if i = 0 then .response 404 "nope".data none else .response 200 "ok".data none

/-- Attempt stream of nothing but 500 responses, used by the C9
witness. -/
def c9retry : Nat → FetchOutcome := fun _ => .response 500 [] none

/-! ## DataNormalizer (backend/services/data_normalizer.py)

Regex embedding notes: the three patterns of the source are modelled by
position-scanning matchers with maximal munch, which coincides with the
backtracking semantics for these patterns (no character class overlaps
the token that follows it).  The word-boundary assertion of the currency
pattern is modelled exactly. -/

/-- Characters of the number class of the salary regexes. -/
def inNumCls (c : Char) : Bool := c.isDigit || c = '.' || c = ','

/-- Characters of the range-separator class of the salary range regex
(a character class, so the letters t and o individually). -/
def inDashCls (c : Char) : Bool := c = '-' || c = '–' || c = '—' || c = 't' || c = 'o'

/-- Python substring membership: needle in hay. -/
def isSubstr (needle hay : List Char) : Bool :=
  (List.range (hay.length + 1)).any (fun i => needle.isPrefixOf (hay.drop i))

/-- Whether the character at index i is a word character; out of range
counts as not. -/
def wordAtIdx (text : List Char) (i : Nat) : Bool :=
  match (text.drop i).head? with
  | some c => isWordChar c
  | none => false

/-- Regex word boundary between positions i - 1 and i. -/
def boundaryAt (text : List Char) (i : Nat) : Bool :=
  (if i = 0 then false else wordAtIdx text (i - 1)) != wordAtIdx text i

/-- Alternatives of the currency pattern, in order. -/
def currencyAlts : List (List Char) :=
  ["CHF".data, "EUR".data, "USD".data, "GBP".data, "€".data, "$".data, "£".data]

/-- Case-insensitive match of one alternative at position i with word
boundaries on both sides; returns the matched text as it appears. -/
def matchAltAt (text : List Char) (i : Nat) (alt : List Char) : Option (List Char) :=
  let seg := (text.drop i).take alt.length
  if seg.length = alt.length ∧ pyLower seg = pyLower alt ∧
      boundaryAt text i = true ∧ boundaryAt text (i + alt.length) = true
  then some seg else none

/-- Leftmost match of the currency pattern. -/
def currencySearch (text : List Char) : Option (List Char) :=
  (List.range text.length).findSome? (fun i => currencyAlts.findSome? (matchAltAt text i))

/-- The symbol-to-code dictionary of the source. -/
def currencySymbolMap : List (List Char × List Char) :=
  [("€".data, "EUR".data), ("$".data, "USD".data), ("£".data, "GBP".data),
   ("chf".data, "CHF".data), ("eur".data, "EUR".data), ("usd".data, "USD".data),
   ("gbp".data, "GBP".data)]

/-- Dictionary get on an association list of strings. -/
def lookupStr (m : List (List Char × List Char)) (k : List Char) : Option (List Char) :=
  (m.find? (fun p => p.1 == k)).map (fun p => p.2)

/-- The map lookup applied to a raw currency match:
map.get(raw.lower(), raw.upper()). -/
def canonCurrency (raw : List Char) : List Char :=
  (lookupStr currencySymbolMap (pyLower raw)).getD (pyUpper raw)

/-- Match of the salary range pattern at the start of the given suffix;
returns the two captured digit groups. -/
def rangeMatchAt : List Char → Option (List Char × List Char)
  | [] => none
  | c :: t =>
    if c.isDigit then
      let g1 := c :: t.takeWhile inNumCls
      let r1 := t.dropWhile inNumCls
      let r2 := r1.dropWhile pyIsSpace
      let r3 := match r2 with
        | k :: kt => if k = 'k' ∨ k = 'K' then kt else k :: kt
        | [] => []
      let r4 := r3.dropWhile pyIsSpace
      if r4.takeWhile inDashCls = ([] : List Char) then none
      else
        let r5 := r4.dropWhile inDashCls
        let r6 := r5.dropWhile pyIsSpace
        match r6 with
        | d :: dt => if d.isDigit then some (g1, d :: dt.takeWhile inNumCls) else none
        | [] => none
    else none

/-- Leftmost match of the salary range pattern. -/
def rangeSearch (s : List Char) : Option (List Char × List Char) :=
  (List.range s.length).findSome? (fun i => rangeMatchAt (s.drop i))

/-- Match of the single-value salary pattern (a digit followed by at
least one number-class character) at the start of the suffix. -/
def singleMatchAt : List Char → Option (List Char)
  | [] => none
  | c :: t =>
    if c.isDigit then
      let run := t.takeWhile inNumCls
      if run = ([] : List Char) then none else some (c :: run)
    else none

/-- Leftmost match of the single-value salary pattern. -/
def singleSearch (s : List Char) : Option (List Char) :=
  (List.range s.length).findSome? (fun i => singleMatchAt (s.drop i))

/-- Value of a string of decimal digits. -/
def natOfDigits (s : List Char) : Nat :=
  s.foldl (fun acc c => acc * 10 + (c.toNat - 48)) 0

/-- DataNormalizer._parse_number: strip separators, parse, and multiply
by 1000 when a k appears in the context and the value is below 1000.
The float of the source always carries an integer here, so the value is
kept in the naturals until the final cast. -/
def parse_number (raw context : List Char) : Option ℚ :=
  if raw = [] then none
  else
    let cleaned := pyStrip (raw.filter (fun c => ¬(c = ',' ∨ c = '.')))
    if cleaned ≠ [] ∧ cleaned.all Char.isDigit then
      let n := natOfDigits cleaned
      if (pyLower context).contains 'k' ∧ n < 1000 then some ((n * 1000 : ℕ) : ℚ)
      else some ((n : ℕ) : ℚ)
    else none

/-- DataNormalizer._parse_salary_string: currency detection, then the
range pattern, then the single-value pattern. -/
def parse_salary_string (text : List Char) :
    Option ℚ × Option ℚ × Option (List Char) :=
  let currency := (currencySearch text).map canonCurrency
  match rangeSearch text with
  | some g => (parse_number g.1 text, parse_number g.2 text, currency)
  | none =>
    match singleSearch text with
    | some g => (parse_number g text, parse_number g text, currency)
    | none => (none, none, currency)

/-- Record shape handled by the normalizer: the dict fields it reads or
writes, with none standing for a missing key or a None value. -/
structure JobRec where
  title : Option (List Char)
  description : Option (List Char)
  description_snippet : Option (List Char)
  employment_type : Option (List Char)
  language : Option (List Char)
  seniority : Option (List Char)
  contract_type : Option (List Char)
  salary_min_chf : Option ℚ
  salary_max_chf : Option ℚ
  salary_original : Option (List Char)
  salary_currency : Option (List Char)
  salary_period : Option (List Char)
deriving DecidableEq

/-- Python truthiness of an optional string (missing, None and the empty
string are falsy). -/
def truthyS : Option (List Char) → Bool
  | none => false
  | some s => !s.isEmpty

/-- Python truthiness of an optional number (missing, None and zero are
falsy). -/
def truthyQ : Option ℚ → Bool
  | none => false
  | some q => q != 0

/-- Python int() on a float: truncation toward zero. -/
def pyIntQ (q : ℚ) : ℚ := if 0 ≤ q then (⌊q⌋ : ℤ) else (⌈q⌉ : ℤ)

/-- CURRENCY_TO_CHF of the source (static rates). -/
def CURRENCY_TO_CHF : List (List Char × ℚ) :=
  [("CHF".data, 1), ("EUR".data, 24/25), ("USD".data, 22/25), ("GBP".data, 28/25)]

/-- PERIOD_MULTIPLIER of the source. -/
def PERIOD_MULTIPLIER : List (List Char × ℚ) :=
  [("yearly".data, 1), ("monthly".data, 12), ("hourly".data, 2080)]

/-- Dictionary get with default on an association list with rational
values. -/
def lookupQ (m : List (List Char × ℚ)) (k : List Char) (dflt : ℚ) : ℚ :=
  ((m.find? (fun p => p.1 == k)).map (fun p => p.2)).getD dflt

/-- Core of DataNormalizer.normalize_salary on the five salary fields;
returns the new (salary_min_chf, salary_max_chf).  Mirrors the source
control flow: skip when both already truthy, parse salary_original when
neither is truthy, give up when the parse is not truthy, else convert
with the currency rate and period multiplier and write each side only
when truthy. -/
def salaryCore (mn mx : Option ℚ) (orig cur per : Option (List Char)) :
    Option ℚ × Option ℚ :=
  if truthyQ mn && truthyQ mx then (mn, mx)
  else
    let salaryOrig := orig.getD []
    let parsed :=
      if salaryOrig ≠ [] && !(truthyQ mn || truthyQ mx) then
        let p := parse_salary_string salaryOrig
        (p.1, p.2.1, if truthyS p.2.2 && !truthyS cur then p.2.2 else cur)
      else (mn, mx, cur)
    if !(truthyQ parsed.1 || truthyQ parsed.2.1) then (mn, mx)
    else
      let rate := if truthyS parsed.2.2 then
        lookupQ CURRENCY_TO_CHF (pyUpper (parsed.2.2.getD [])) 1 else 1
      let mult := if truthyS per then lookupQ PERIOD_MULTIPLIER (per.getD []) 1 else 1
      ((if truthyQ parsed.1 then some (pyIntQ ((parsed.1.getD 0) * rate * mult)) else mn),
       (if truthyQ parsed.2.1 then some (pyIntQ ((parsed.2.1.getD 0) * rate * mult)) else mx))

/-- DataNormalizer.normalize_salary: only the two CHF fields are ever
written (in particular salary_currency is never written back). -/
def normalize_salary (j : JobRec) : JobRec :=
  let r := salaryCore j.salary_min_chf j.salary_max_chf j.salary_original
    j.salary_currency j.salary_period
  { j with salary_min_chf := r.1, salary_max_chf := r.2 }

/-- Languages accepted by detect_language. -/
def LANG_ALLOWED : List (List Char) := ["de".data, "fr".data, "en".data, "it".data]

/-- Core of DataNormalizer.detect_language.  The external langdetect
call is the parameter det: none models a raised LangDetectException,
otherwise the ranked (language, probability) list. -/
def langStep (det : List Char → Option (List (List Char × ℚ)))
    (lang title desc : Option (List Char)) : Option (List Char) :=
  if truthyS lang then lang
  else
    let text := pyStrip ((title.getD []) ++ ' ' :: (desc.getD []))
    if text.length < 50 then lang
    else
      match det text with
      | none => lang
      | some [] => lang
      | some ((l, p) :: _) =>
        if 7/10 ≤ p ∧ LANG_ALLOWED.contains l then some l else lang

/-- DataNormalizer.detect_language. -/
def detect_language (det : List Char → Option (List (List Char × ℚ)))
    (j : JobRec) : JobRec :=
  { j with language := langStep det j.language j.title j.description }

/-- The keyword chef d + apostrophe + equipe of the lead pattern. -/
def chefDEquipe : List Char := "chef d".data ++ Char.ofNat 39 :: "équipe".data

/-- SENIORITY_PATTERNS of the source, in priority order. -/
def SENIORITY_PATTERNS : List (List Char × List (List Char)) :=
  [("head".data, ["head of".data, "director".data, "directeur".data,
    "direktor".data, "chef de".data]),
   ("lead".data, ["lead".data, "leiter".data, "team lead".data,
    chefDEquipe, "teamleiter".data]),
   ("senior".data, ["senior".data, "sr.".data, "experienced".data,
    "erfahren".data, "expérimenté".data]),
   ("mid".data, ["mid-level".data, "mid level".data, "confirmé".data,
    "confirmed".data]),
   ("junior".data, ["junior".data, "jr.".data, "anfänger".data, "débutant".data]),
   ("intern".data, ["intern".data, "internship".data, "praktikant".data,
    "praktikum".data, "stage".data, "stagiaire".data, "trainee".data])]

/-- Core of DataNormalizer.infer_seniority. -/
def senStep (sen title : Option (List Char)) : Option (List Char) :=
  if truthyS sen then sen
  else
    let tl := pyLower (title.getD [])
    if tl = [] then sen
    else
      match SENIORITY_PATTERNS.findSome? (fun p =>
        if p.2.any (fun kw => isSubstr kw tl) then some p.1 else none) with
      | some lvl => some lvl
      | none => sen

/-- DataNormalizer.infer_seniority. -/
def infer_seniority (j : JobRec) : JobRec :=
  { j with seniority := senStep j.seniority j.title }

/-- CONTRACT_PATTERNS of the source, in priority order. -/
def CONTRACT_PATTERNS : List (List Char × List (List Char)) :=
  [("apprenticeship".data, ["apprenticeship".data, "apprentissage".data,
    "lehre".data, "lehrstelle".data, "lehrling".data]),
   ("internship".data, ["internship".data, "praktikum".data, "stage".data,
    "stagiaire".data, "trainee".data]),
   ("temporary".data, ["temporary".data, "temp ".data, "temporär".data,
    "intérim".data, "interim".data]),
   ("contract".data, ["contract".data, "freelance".data, "befristet".data,
    "cdd".data, "contrat à durée déterminée".data]),
   ("part_time".data, ["part-time".data, "part time".data, "teilzeit".data,
    "temps partiel".data, "50%".data, "60%".data, "70%".data, "80%".data,
    "90%".data]),
   ("full_time".data, ["full-time".data, "full time".data, "100%".data,
    "vollzeit".data, "temps plein".data, "festanstellung".data,
    "unbefristet".data, "cdi".data, "permanent".data])]

/-- Core of DataNormalizer.infer_contract_type: the three candidate
fields are joined with spaces before the keyword scan. -/
def ctStep (ct empl title snip : Option (List Char)) : Option (List Char) :=
  if truthyS ct then ct
  else
    let combined := pyLower ((empl.getD []) ++ ' ' :: (title.getD []) ++ ' ' :: (snip.getD []))
    if pyStrip combined = [] then ct
    else
      match CONTRACT_PATTERNS.findSome? (fun p =>
        if p.2.any (fun kw => isSubstr kw combined) then some p.1 else none) with
      | some c => some c
      | none => ct

/-- DataNormalizer.infer_contract_type. -/
def infer_contract_type (j : JobRec) : JobRec :=
  { j with contract_type :=
      ctStep j.contract_type j.employment_type j.title j.description_snippet }

/-- DataNormalizer.normalize: the four enrichment steps in order. -/
def normalize (det : List Char → Option (List (List Char × ℚ))) (j : JobRec) : JobRec :=
  infer_contract_type (infer_seniority (detect_language det (normalize_salary j)))

/-- Detector that always raises, standing for any concrete langdetect
behaviour on inputs the claims never let reach it. -/
def noDetect : List Char → Option (List (List Char × ℚ)) := fun _ => none

/-- The record with every field absent. -/
def emptyRec : JobRec :=
  ⟨none, none, none, none, none, none, none, none, none, none, none, none⟩

/-- C5 counterexample record: only salary_min_chf and a monthly period
are set. -/
def c5rec : JobRec :=
  { emptyRec with salary_min_chf := some 5000, salary_period := some "monthly".data }

/-- The C6 salary string. -/
def c6str : List Char := "80000-100000 EUR".data

/-- C6 scenario record. -/
def c6rec : JobRec :=
  { emptyRec with salary_original := some c6str,
                  salary_period := some "yearly".data }

/-! ## Supporting lemmas -/

/-- The C6 salary string parses to the 80000 to 100000 range with EUR
detected. -/
lemma c6_parse : parse_salary_string c6str =
    (some ((80000 : ℕ) : ℚ), some ((100000 : ℕ) : ℚ), some "EUR".data) := by
  decide

/-- Euro amounts of the C6 scenario converted at rate 24/25. -/
lemma c6_arith_min : ((80000 : ℕ) : ℚ) * (24/25) * 1 = 76800 := by
  push_cast
  norm_num

lemma c6_arith_max : ((100000 : ℕ) : ℚ) * (24/25) * 1 = 96000 := by
  push_cast
  norm_num

/-- Truncation is the identity on non-negative integers. -/
lemma pyIntQ_intCast (n : ℤ) (hn : 0 ≤ n) : pyIntQ n = n := by
  rw [pyIntQ, if_pos (by exact_mod_cast hn)]
  simp

/-- Evaluation of the salary core on the C6 scenario fields. -/
lemma c6_core :
    salaryCore none none (some c6str) none (some "yearly".data) =
      (some 76800, some 96000) := by
  have htq : truthyQ (none : Option ℚ) = false := rfl
  have htn : truthyS (none : Option (List Char)) = false := rfl
  have hne : (decide (c6str ≠ ([] : List Char))) = true := by decide
  have ht1 : truthyS (some "EUR".data) = true := by decide
  have ht2 : truthyS (some "yearly".data) = true := by decide
  have ht3 : truthyQ (some ((80000 : ℕ) : ℚ)) = true := by decide
  have ht4 : truthyQ (some ((100000 : ℕ) : ℚ)) = true := by decide
  have hrate : lookupQ CURRENCY_TO_CHF (pyUpper "EUR".data) 1 = 24/25 := rfl
  have hmult : lookupQ PERIOD_MULTIPLIER "yearly".data 1 = 1 := rfl
  have hg1 : pyIntQ 76800 = 76800 := by
    rw [pyIntQ, if_pos (by norm_num)]
    norm_num
  have hg2 : pyIntQ 96000 = 96000 := by
    rw [pyIntQ, if_pos (by norm_num)]
    norm_num
  simp only [salaryCore, Option.getD_some, Option.getD_none, htq, htn, hne, c6_parse,
    Bool.and_true, Bool.true_and, Bool.and_false, Bool.false_and, Bool.or_self,
    Bool.false_or, Bool.or_false, Bool.not_false, Bool.not_true, Bool.false_eq_true,
    if_false, if_true, ht1, ht2, ht3, ht4]
  simp only [hrate, hmult, c6_arith_min, c6_arith_max, hg1, hg2]

/-- Full characterisation of the breaker state after i consecutive
failures, for i up to the threshold. -/
lemma cbFailN_spec (ft : Nat) (rt : ℚ) (tau : Nat → ℚ) :
    ∀ i, i ≤ ft →
      cbFailN ft rt tau i =
        ⟨(if i = 0 then .closed else if ft ≤ i then .opened else .closed), i,
         (if i = 0 then 0 else tau (i - 1)), 0⟩ := by
  intro i
  induction i with
  | zero => intro _; simp [cbFailN, cbInit]
  | succ n ih =>
    intro hle
    have hn : n ≤ ft := Nat.le_of_succ_le hle
    have hrec : cbFailN ft rt tau n =
        ⟨.closed, n, (if n = 0 then 0 else tau (n - 1)), 0⟩ := by
      rw [ih hn]
      have hcond : (if n = 0 then CircuitState.closed
          else if ft ≤ n then CircuitState.opened else CircuitState.closed) =
          CircuitState.closed := by
        by_cases hn0 : n = 0
        · simp [hn0]
        · have hnf : ¬ ft ≤ n := by omega
          simp [hn0, hnf]
      rw [hcond]
    show (cbCall ft rt (cbFailN ft rt tau n) (tau n) false).2 = _
    rw [hrec]
    have hsp : cbStateProp rt ⟨.closed, n, (if n = 0 then 0 else tau (n - 1)), 0⟩ (tau n) =
        (.closed, ⟨.closed, n, (if n = 0 then 0 else tau (n - 1)), 0⟩) := by
      rw [cbStateProp, if_neg]
      rintro ⟨h, -⟩
      exact CircuitState.noConfusion h
    simp only [cbCall, hsp]
    simp only [cbOnFailure, reduceCtorEq, if_false, Bool.false_eq_true]
    by_cases hth : ft ≤ n + 1
    · simp [hth, ge_iff_le]
    · simp [hth, ge_iff_le]

/-- Truthiness of an abstract nonzero rational. -/
lemma truthyQ_some_of_ne (q : ℚ) (hq : q ≠ 0) : truthyQ (some q) = true := by
  simp [truthyQ, bne_iff_ne, hq]

/-- Evaluation of the salary core when only the minimum is set, with a
monthly period and no original string or currency. -/
lemma salaryCore_min_monthly (q v : ℚ) (hq : q ≠ 0)
    (harith : pyIntQ (q * 1 * 12) = v) :
    salaryCore (some q) none none none (some "monthly".data) = (some v, none) := by
  have ht : truthyQ (some q) = true := truthyQ_some_of_ne q hq
  have htq : truthyQ (none : Option ℚ) = false := rfl
  have htn : truthyS (none : Option (List Char)) = false := rfl
  have htm : truthyS (some "monthly".data) = true := by decide
  have hmult : lookupQ PERIOD_MULTIPLIER "monthly".data 1 = 12 := rfl
  have hdec : (decide (([] : List Char) ≠ [])) = false := by decide
  simp only [salaryCore, Option.getD_none, Option.getD_some, ht, htq, htn, htm, hmult,
    hdec, Bool.and_false, Bool.false_and, Bool.and_true, Bool.true_and, Bool.or_false,
    Bool.false_or, Bool.not_true, Bool.not_false, Bool.false_eq_true, if_false, if_true,
    harith]

/-- Stability of the salary core: a second run is the identity when the
first either produced two truthy values or left the fields unchanged. -/
lemma salaryCore_stable (mn mx : Option ℚ) (orig cur per : Option (List Char))
    (H : (truthyQ (salaryCore mn mx orig cur per).1 = true ∧
          truthyQ (salaryCore mn mx orig cur per).2 = true) ∨
         salaryCore mn mx orig cur per = (mn, mx)) :
    salaryCore (salaryCore mn mx orig cur per).1 (salaryCore mn mx orig cur per).2
      orig cur per = salaryCore mn mx orig cur per := by
  rcases H with ⟨h1, h2⟩ | h
  · conv_lhs => rw [salaryCore]
    rw [if_pos (by rw [h1, h2]; rfl)]
  · rw [h]
    exact h

/-- Stability of the language step: any language the step writes is a
truthy allowed code, and the step is skipped once the field is truthy. -/
lemma langStep_stable (det : List Char → Option (List (List Char × ℚ)))
    (lang title desc : Option (List Char)) :
    langStep det (langStep det lang title desc) title desc =
      langStep det lang title desc := by
  by_cases h1 : truthyS lang = true
  · have hv : langStep det lang title desc = lang := by
      unfold langStep
      rw [if_pos h1]
    rw [hv]
    exact hv
  · have hv : langStep det lang title desc = lang ∨
        ∃ l, langStep det lang title desc = some l ∧ truthyS (some l) = true := by
      unfold langStep
      rw [if_neg h1]
      by_cases h2 : (pyStrip ((title.getD []) ++ ' ' :: (desc.getD []))).length < 50
      · rw [if_pos h2]
        left
        rfl
      · rw [if_neg h2]
        cases hdet : det (pyStrip ((title.getD []) ++ ' ' :: (desc.getD []))) with
        | none => left; rfl
        | some results =>
          cases results with
          | nil => left; rfl
          | cons hd tl =>
            obtain ⟨l, p⟩ := hd
            dsimp only
            by_cases h3 : 7/10 ≤ p ∧ LANG_ALLOWED.contains l
            · rw [if_pos h3]
              right
              refine ⟨l, rfl, ?_⟩
              have hmem : l ∈ LANG_ALLOWED := by simpa using h3.2
              fin_cases hmem <;> decide
            · rw [if_neg h3]
              left
              rfl
    rcases hv with hv | ⟨l, hv, hl⟩
    · rw [hv]
      exact hv
    · rw [hv]
      unfold langStep
      rw [if_pos hl]

/-- Stability of the seniority step. -/
lemma senStep_stable (sen title : Option (List Char)) :
    senStep (senStep sen title) title = senStep sen title := by
  by_cases h1 : truthyS sen = true
  · have hv : senStep sen title = sen := by
      unfold senStep
      rw [if_pos h1]
    rw [hv]
    exact hv
  · have hv : senStep sen title = sen ∨
        ∃ lvl, senStep sen title = some lvl ∧ truthyS (some lvl) = true := by
      unfold senStep
      rw [if_neg h1]
      by_cases h2 : pyLower (title.getD []) = []
      · rw [if_pos h2]
        left
        rfl
      · rw [if_neg h2]
        cases hf : SENIORITY_PATTERNS.findSome? (fun p =>
            if p.2.any (fun kw => isSubstr kw (pyLower (title.getD []))) then some p.1
            else none) with
        | none => left; rfl
        | some lvl =>
          right
          refine ⟨lvl, rfl, ?_⟩
          obtain ⟨pat, hp, hpe⟩ := List.exists_of_findSome?_eq_some hf
          have hlvl : lvl = pat.1 := by
            by_cases hc : pat.2.any (fun kw => isSubstr kw (pyLower (title.getD []))) = true
            · rw [if_pos hc] at hpe
              exact (Option.some_inj.mp hpe).symm
            · rw [if_neg (by simpa using hc)] at hpe
              exact absurd hpe (by simp)
          subst hlvl
          fin_cases hp <;> decide
    rcases hv with hv | ⟨lvl, hv, hl⟩
    · rw [hv]
      exact hv
    · rw [hv]
      unfold senStep
      rw [if_pos hl]

/-- Stability of the contract type step. -/
lemma ctStep_stable (ct empl title snip : Option (List Char)) :
    ctStep (ctStep ct empl title snip) empl title snip = ctStep ct empl title snip := by
  by_cases h1 : truthyS ct = true
  · have hv : ctStep ct empl title snip = ct := by
      unfold ctStep
      rw [if_pos h1]
    rw [hv]
    exact hv
  · have hv : ctStep ct empl title snip = ct ∨
        ∃ c, ctStep ct empl title snip = some c ∧ truthyS (some c) = true := by
      unfold ctStep
      rw [if_neg h1]
      by_cases h2 : pyStrip (pyLower ((empl.getD []) ++ ' ' :: (title.getD []) ++ ' ' ::
          (snip.getD []))) = []
      · rw [if_pos h2]
        left
        rfl
      · rw [if_neg h2]
        cases hf : CONTRACT_PATTERNS.findSome? (fun p =>
            if p.2.any (fun kw => isSubstr kw (pyLower ((empl.getD []) ++ ' ' ::
              (title.getD []) ++ ' ' :: (snip.getD [])))) then some p.1 else none) with
        | none => left; rfl
        | some c =>
          right
          refine ⟨c, rfl, ?_⟩
          obtain ⟨pat, hp, hpe⟩ := List.exists_of_findSome?_eq_some hf
          have hc2 : c = pat.1 := by
            by_cases hc : pat.2.any (fun kw => isSubstr kw (pyLower ((empl.getD []) ++
                ' ' :: (title.getD []) ++ ' ' :: (snip.getD [])))) = true
            · rw [if_pos hc] at hpe
              exact (Option.some_inj.mp hpe).symm
            · rw [if_neg (by simpa using hc)] at hpe
              exact absurd hpe (by simp)
          subst hc2
          fin_cases hp <;> decide
    rcases hv with hv | ⟨c, hv, hl⟩
    · rw [hv]
      exact hv
    · rw [hv]
      unfold ctStep
      rw [if_pos hl]

/-! ### String lemmas for the fuzzy-hash and hash claims -/

lemma dropWhile_append_all (p : Char → Bool) (a b : List Char)
    (ha : ∀ c ∈ a, p c = true) : (a ++ b).dropWhile p = b.dropWhile p := by
  induction a with
  | nil => rfl
  | cons c t ih =>
    rw [List.cons_append, List.dropWhile_cons, if_pos (ha c (List.mem_cons_self c t))]
    exact ih (fun x hx => ha x (List.mem_cons_of_mem c hx))

lemma dropWhile_append_ne (p : Char → Bool) (a b : List Char)
    (ha : a.dropWhile p ≠ []) : (a ++ b).dropWhile p = a.dropWhile p ++ b := by
  induction a with
  | nil => exact absurd rfl ha
  | cons c t ih =>
    rw [List.dropWhile_cons] at ha
    rw [List.cons_append, List.dropWhile_cons, List.dropWhile_cons]
    by_cases hc : p c = true
    · rw [if_pos hc] at ha
      rw [if_pos hc, if_pos hc]
      exact ih ha
    · rw [if_neg hc, if_neg hc]
      exact (List.cons_append c t b).symm

lemma allSpace_mem (sp : List Char) (hsp : allSpace sp = true) :
    ∀ c ∈ sp, pyIsSpace c = true := by
  unfold allSpace at hsp
  exact fun c hc => List.all_eq_true.mp hsp c hc

lemma allSpace_of_mem (sp : List Char) (h : ∀ c ∈ sp, pyIsSpace c = true) :
    allSpace sp = true := by
  unfold allSpace
  exact List.all_eq_true.mpr h

lemma lstripWs_append_all (a b : List Char) (ha : allSpace a = true) :
    lstripWs (a ++ b) = lstripWs b := by
  unfold lstripWs
  exact dropWhile_append_all pyIsSpace a b (allSpace_mem a ha)

lemma lstripWs_append_ne (a b : List Char) (ha : lstripWs a ≠ []) :
    lstripWs (a ++ b) = lstripWs a ++ b := by
  unfold lstripWs at ha ⊢
  exact dropWhile_append_ne pyIsSpace a b ha

lemma lstripWs_allSpace (sp : List Char) (hsp : allSpace sp = true) :
    lstripWs sp = [] := by
  unfold lstripWs
  exact List.dropWhile_eq_nil_iff.mpr (allSpace_mem sp hsp)

lemma rstripWs_append_allSpace (a b : List Char) (hb : allSpace b = true) :
    rstripWs (a ++ b) = rstripWs a := by
  unfold rstripWs
  rw [List.reverse_append]
  rw [dropWhile_append_all pyIsSpace b.reverse a.reverse
    (fun c hc => allSpace_mem b hb c (List.mem_reverse.mp hc))]

lemma rstripWs_fix_append (a b : List Char) (hb : b ≠ []) (hfix : rstripWs b = b) :
    rstripWs (a ++ b) = a ++ b := by
  cases hbr : b.reverse with
  | nil => exact absurd (List.reverse_eq_nil_iff.mp hbr) hb
  | cons c r =>
    have hc : pyIsSpace c = false := by
      by_contra hcc
      rw [Bool.not_eq_false] at hcc
      have h1 : rstripWs b = (r.dropWhile pyIsSpace).reverse := by
        unfold rstripWs
        rw [hbr, List.dropWhile_cons, if_pos hcc]
      have h2 : (rstripWs b).length ≤ r.length := by
        rw [h1, List.length_reverse]
        exact (List.dropWhile_sublist pyIsSpace).length_le
      have h3 : b.length = r.length + 1 := by
        have hh := congrArg List.length hbr
        rw [List.length_reverse] at hh
        simpa using hh
      rw [hfix] at h2
      omega
    unfold rstripWs
    rw [List.reverse_append, hbr, List.cons_append, List.dropWhile_cons,
      if_neg (by simp [hc])]
    have hsw : c :: (r ++ a.reverse) = (a ++ b).reverse := by
      rw [List.reverse_append, hbr, List.cons_append]
    rw [hsw, List.reverse_reverse]

lemma lstrip_eq_strip_append (x : List Char) :
    ∃ sp, allSpace sp = true ∧ lstripWs x = pyStrip x ++ sp := by
  refine ⟨((lstripWs x).reverse.takeWhile pyIsSpace).reverse, ?_, ?_⟩
  · refine allSpace_of_mem _ (fun c hc => ?_)
    exact List.mem_takeWhile_imp (List.mem_reverse.mp hc)
  · unfold pyStrip rstripWs
    rw [← List.reverse_append, List.takeWhile_append_dropWhile, List.reverse_reverse]

lemma pyReplaceAux_skip (w r : List Char) :
    ∀ k t, pyReplaceAux w r k t = pyReplaceAux w r 0 (t.drop k) := by
  intro k
  induction k with
  | zero => intro t; rw [List.drop_zero]
  | succ n ih =>
    intro t
    cases t with
    | nil => rfl
    | cons a t2 =>
      rw [List.drop_succ_cons]
      show pyReplaceAux w r n t2 = pyReplaceAux w r 0 (t2.drop n)
      exact ih t2

lemma pyReplace_nil (w r : List Char) : pyReplace w r [] = [] := rfl

lemma pyReplace_cons_match (w r : List Char) (a : Char) (t : List Char)
    (hw : w ≠ []) (hp : w.isPrefixOf (a :: t) = true) :
    pyReplace w r (a :: t) = r ++ pyReplace w r (t.drop (w.length - 1)) := by
  unfold pyReplace
  simp only [pyReplaceAux]
  rw [if_pos ⟨hw, hp⟩, pyReplaceAux_skip w r (w.length - 1) t]

lemma pyReplace_cons_nomatch (w r : List Char) (a : Char) (t : List Char)
    (h : ¬ (w ≠ [] ∧ w.isPrefixOf (a :: t) = true)) :
    pyReplace w r (a :: t) = a :: pyReplace w r t := by
  unfold pyReplace
  simp only [pyReplaceAux]
  rw [if_neg h]

lemma prefix_span (w x y : List Char) (h : w <+: x ++ y) :
    w.drop x.length <+: y := by
  obtain ⟨s, hs⟩ := h
  refine ⟨s.drop (x.length - w.length), ?_⟩
  have hd := congrArg (List.drop x.length) hs
  rw [List.drop_append_eq_append_drop, List.drop_left] at hd
  exact hd

lemma isPrefixOf_append_left (w x y : List Char) (hlen : w.length ≤ x.length)
    (h : w.isPrefixOf (x ++ y) = true) : w.isPrefixOf x = true := by
  rw [List.isPrefixOf_iff_prefix] at h ⊢
  have hw := List.prefix_iff_eq_take.mp h
  rw [List.take_append_eq_append_take, Nat.sub_eq_zero_of_le hlen, List.take_zero,
    List.append_nil] at hw
  rw [hw]
  exact List.take_prefix w.length x

lemma pyReplace_append_bound (w r tail : List Char) (hns : NoSpanP w tail) :
    ∀ n s, s.length ≤ n →
      pyReplace w r (s ++ tail) = pyReplace w r s ++ pyReplace w r tail := by
  intro n
  induction n with
  | zero =>
    intro s hs
    have hnil : s = [] := List.eq_nil_of_length_eq_zero (Nat.le_zero.mp hs)
    subst hnil
    rw [List.nil_append, pyReplace_nil, List.nil_append]
  | succ n ih =>
    intro s hs
    cases s with
    | nil => rw [List.nil_append, pyReplace_nil, List.nil_append]
    | cons a t =>
      have ht : t.length ≤ n := by
        simp only [List.length_cons] at hs
        omega
      rw [List.cons_append]
      by_cases hm : w ≠ [] ∧ w.isPrefixOf (a :: (t ++ tail)) = true
      · obtain ⟨hw, hp⟩ := hm
        have hlen : w.length ≤ t.length + 1 := by
          by_contra hgt
          push_neg at hgt
          have hpre : w <+: (a :: t) ++ tail := by
            rw [List.cons_append]
            exact List.isPrefixOf_iff_prefix.mp hp
          have hspan := prefix_span w (a :: t) tail hpre
          exact hns (a :: t).length (by simpa using hgt) (by simp) hspan
        have hpx : w.isPrefixOf (a :: t) = true := by
          refine isPrefixOf_append_left w (a :: t) tail (by simpa using hlen) ?_
          rw [List.cons_append]
          exact hp
        rw [pyReplace_cons_match w r a (t ++ tail) hw hp,
          pyReplace_cons_match w r a t hw hpx]
        have hz : w.length - 1 - t.length = 0 := by omega
        have hdrop : (t ++ tail).drop (w.length - 1) = t.drop (w.length - 1) ++ tail := by
          rw [List.drop_append_eq_append_drop, hz, List.drop_zero]
        rw [hdrop, List.append_assoc]
        have hlt : (t.drop (w.length - 1)).length ≤ n := by
          rw [List.length_drop]
          omega
        rw [ih (t.drop (w.length - 1)) hlt]
      · have hm2 : ¬ (w ≠ [] ∧ w.isPrefixOf (a :: t) = true) := by
          rintro ⟨hw, hpx⟩
          refine hm ⟨hw, ?_⟩
          have h1 : w <+: a :: t := List.isPrefixOf_iff_prefix.mp hpx
          have h2 : w <+: (a :: t) ++ tail := h1.trans (List.prefix_append (a :: t) tail)
          rw [List.cons_append] at h2
          exact List.isPrefixOf_iff_prefix.mpr h2
        rw [pyReplace_cons_nomatch w r a (t ++ tail) hm,
          pyReplace_cons_nomatch w r a t hm2]
        rw [ih t ht, List.cons_append]

lemma pyReplace_append (w r tail : List Char) (hns : NoSpanP w tail) (s : List Char) :
    pyReplace w r (s ++ tail) = pyReplace w r s ++ pyReplace w r tail :=
  pyReplace_append_bound w r tail hns s.length s (Nat.le_refl _)

lemma foldRep_append (ws : List (List Char)) :
    ∀ tail, DistribP ws tail → ∀ s,
      ws.foldl (fun acc w => pyReplace w [' '] acc) (s ++ tail) =
        ws.foldl (fun acc w => pyReplace w [' '] acc) s ++
          ws.foldl (fun acc w => pyReplace w [' '] acc) tail := by
  induction ws with
  | nil => intro tail _ s; rfl
  | cons w ws ih =>
    intro tail hd s
    have hd2 : NoSpanP w tail ∧ DistribP ws (pyReplace w [' '] tail) := hd
    simp only [List.foldl_cons]
    rw [pyReplace_append w [' '] tail hd2.1 s]
    exact ih (pyReplace w [' '] tail) hd2.2 (pyReplace w [' '] s)

lemma stripSeniority_append (tail : List Char) (hd : DistribP seniorityStripList tail)
    (s : List Char) :
    stripSeniority (s ++ tail) = stripSeniority s ++ stripSeniority tail := by
  unfold stripSeniority
  exact foldRep_append seniorityStripList tail hd s

lemma isPrefixOf_allSpace (w sp : List Char) (hw : w.any (fun c => !pyIsSpace c) = true)
    (hsp : allSpace sp = true) : w.isPrefixOf sp = false := by
  by_contra hne
  rw [Bool.not_eq_false] at hne
  have hsub := List.isPrefixOf_iff_prefix.mp hne
  obtain ⟨c, hc, hcs⟩ := List.any_eq_true.mp hw
  have hmem : c ∈ sp := hsub.subset hc
  have hspc := allSpace_mem sp hsp c hmem
  rw [hspc] at hcs
  simp at hcs

lemma pyReplace_allSpace (w r : List Char) (hw : w.any (fun c => !pyIsSpace c) = true) :
    ∀ sp, allSpace sp = true → pyReplace w r sp = sp := by
  intro sp
  induction sp with
  | nil => intro _; rfl
  | cons c t ih =>
    intro hsp
    have ht : allSpace t = true :=
      allSpace_of_mem t (fun x hx => allSpace_mem _ hsp x (List.mem_cons_of_mem c hx))
    have hno : ¬ (w ≠ [] ∧ w.isPrefixOf (c :: t) = true) := by
      rintro ⟨-, hpre⟩
      rw [isPrefixOf_allSpace w (c :: t) hw hsp] at hpre
      exact Bool.false_ne_true hpre
    rw [pyReplace_cons_nomatch w r c t hno, ih ht]

lemma goodWord_any (w : List Char) (hw : goodWord w = true) :
    w.any (fun c => !pyIsSpace c) = true := by
  unfold goodWord at hw
  rw [Bool.and_eq_true] at hw
  have hlen : 0 < w.length := by
    cases w with
    | nil => simp at hw
    | cons _ _ => simp
  have h0 := List.all_eq_true.mp hw.2 0 (List.mem_range.mpr hlen)
  simpa using h0

lemma goodWord_suffix_any (w : List Char) (hw : goodWord w = true) (j : Nat)
    (hj : j < w.length) : (w.drop j).any (fun c => !pyIsSpace c) = true := by
  unfold goodWord at hw
  rw [Bool.and_eq_true] at hw
  exact List.all_eq_true.mp hw.2 j (List.mem_range.mpr hj)

lemma noSpanP_allSpace (w sp : List Char) (hw : goodWord w = true)
    (hsp : allSpace sp = true) : NoSpanP w sp := by
  intro j hj _ hpre
  have hany := goodWord_suffix_any w hw j hj
  obtain ⟨c, hc, hcs⟩ := List.any_eq_true.mp hany
  have hmem : c ∈ sp := hpre.subset hc
  have hspc := allSpace_mem sp hsp c hmem
  rw [hspc] at hcs
  simp at hcs

lemma distribP_allSpace (ws : List (List Char)) :
    ws.all goodWord = true → ∀ sp, allSpace sp = true → DistribP ws sp := by
  induction ws with
  | nil => intro _ sp _; exact True.intro
  | cons w ws ih =>
    intro hws sp hsp
    rw [List.all_cons, Bool.and_eq_true] at hws
    refine ⟨noSpanP_allSpace w sp hws.1 hsp, ?_⟩
    rw [pyReplace_allSpace w [' '] (goodWord_any w hws.1) sp hsp]
    exact ih hws.2 sp hsp

lemma foldRep_allSpace (ws : List (List Char)) :
    ws.all goodWord = true → ∀ sp, allSpace sp = true →
      ws.foldl (fun acc w => pyReplace w [' '] acc) sp = sp := by
  induction ws with
  | nil => intro _ sp _; rfl
  | cons w ws ih =>
    intro hws sp hsp
    rw [List.all_cons, Bool.and_eq_true] at hws
    simp only [List.foldl_cons]
    rw [pyReplace_allSpace w [' '] (goodWord_any w hws.1) sp hsp]
    exact ih hws.2 sp hsp

lemma stripSeniority_allSpace (sp : List Char) (hsp : allSpace sp = true) :
    stripSeniority sp = sp := by
  unfold stripSeniority
  exact foldRep_allSpace seniorityStripList (by decide) sp hsp

lemma punctSub_append (a b : List Char) :
    punctSub (a ++ b) = punctSub a ++ punctSub b := by
  unfold punctSub
  exact List.map_append _ a b

lemma punctSub_allSpace (sp : List Char) : allSpace sp = true → punctSub sp = sp := by
  induction sp with
  | nil => intro _; rfl
  | cons c t ih =>
    intro hsp
    have hc := allSpace_mem _ hsp c (List.mem_cons_self c t)
    have ht : allSpace t = true :=
      allSpace_of_mem t (fun x hx => allSpace_mem _ hsp x (List.mem_cons_of_mem c hx))
    show (if !isWordChar c && !pyIsSpace c then ' ' else c) :: punctSub t = c :: t
    rw [hc, ih ht]
    simp

lemma splitWsAux_allSpace (sp : List Char) : allSpace sp = true →
    ∀ acc, splitWsAux sp acc = if acc = [] then [] else [acc.reverse] := by
  induction sp with
  | nil => intro _ acc; rfl
  | cons c t ih =>
    intro hsp acc
    have hc := allSpace_mem _ hsp c (List.mem_cons_self c t)
    have ht : allSpace t = true :=
      allSpace_of_mem t (fun x hx => allSpace_mem _ hsp x (List.mem_cons_of_mem c hx))
    simp only [splitWsAux]
    rw [if_pos hc]
    have htail : splitWsAux t [] = [] := by
      rw [ih ht []]
      rfl
    by_cases hacc : acc = []
    · rw [if_pos hacc, if_pos hacc, htail]
    · rw [if_neg hacc, if_neg hacc, htail]

lemma splitWsAux_append_allSpace (sp : List Char) (hsp : allSpace sp = true) :
    ∀ s acc, splitWsAux (s ++ sp) acc = splitWsAux s acc := by
  intro s
  induction s with
  | nil =>
    intro acc
    rw [List.nil_append, splitWsAux_allSpace sp hsp acc]
    rfl
  | cons c t ih =>
    intro acc
    simp only [List.cons_append, splitWsAux, List.append_eq]
    by_cases hc : pyIsSpace c = true
    · rw [if_pos hc, if_pos hc]
      by_cases hacc : acc = []
      · rw [if_pos hacc, if_pos hacc, ih []]
      · rw [if_neg hacc, if_neg hacc, ih []]
    · rw [if_neg hc, if_neg hc, ih (c :: acc)]

lemma splitWsAux_append_space (m : List Char) (c : Char) (hc : pyIsSpace c = true) :
    ∀ s acc, splitWsAux (s ++ c :: m) acc = splitWsAux s acc ++ splitWsAux m [] := by
  intro s
  induction s with
  | nil =>
    intro acc
    simp only [List.nil_append, splitWsAux]
    rw [if_pos hc]
    by_cases hacc : acc = []
    · rw [if_pos hacc, if_pos hacc, List.nil_append]
    · rw [if_neg hacc, if_neg hacc, List.singleton_append]
  | cons a t ih =>
    intro acc
    simp only [List.cons_append, splitWsAux, List.append_eq]
    by_cases ha : pyIsSpace a = true
    · rw [if_pos ha, if_pos ha]
      by_cases hacc : acc = []
      · rw [if_pos hacc, if_pos hacc, ih []]
      · rw [if_neg hacc, if_neg hacc, ih [], List.cons_append]
    · rw [if_neg ha, if_neg ha, ih (a :: acc)]

lemma splitWs_append_allSpace (s sp : List Char) (hsp : allSpace sp = true) :
    splitWs (s ++ sp) = splitWs s := by
  unfold splitWs
  exact splitWsAux_append_allSpace sp hsp s []

lemma splitWs_append_space (s m : List Char) (c : Char) (hc : pyIsSpace c = true) :
    splitWs (s ++ c :: m) = splitWs s ++ splitWs m := by
  unfold splitWs
  exact splitWsAux_append_space m c hc s []

lemma titleRest_append (tail : List Char) (hd : DistribP seniorityStripList tail)
    (hsp : allSpace (stripSeniority tail) = true) (u : List Char) :
    titleRest (u ++ tail) = titleRest u := by
  unfold titleRest
  rw [stripSeniority_append tail hd u, punctSub_append,
    punctSub_allSpace (stripSeniority tail) hsp]
  unfold collapseStrip
  rw [splitWs_append_allSpace (punctSub (stripSeniority u)) (stripSeniority tail) hsp]

lemma titleRest_append_allSpace (sp : List Char) (hsp : allSpace sp = true)
    (u : List Char) : titleRest (u ++ sp) = titleRest u := by
  refine titleRest_append sp (distribP_allSpace seniorityStripList (by decide) sp hsp) ?_ u
  rw [stripSeniority_allSpace sp hsp]
  exact hsp

lemma companyRest_append (tail : List Char) (hpt : punctSub tail = tail)
    (c0 : Char) (m0 : List Char) (htl : tail = c0 :: m0) (hc0 : pyIsSpace c0 = true)
    (hkill : (splitWs m0).filter (fun w => !companySuffixList.contains w) = [])
    (u : List Char) :
    companyRest (u ++ tail) = companyRest u := by
  unfold companyRest
  rw [punctSub_append, hpt, htl,
    splitWs_append_space (punctSub u) m0 c0 hc0,
    List.filter_append, hkill, List.append_nil]

lemma companyRest_append_allSpace (sp : List Char) (hsp : allSpace sp = true)
    (u : List Char) : companyRest (u ++ sp) = companyRest u := by
  unfold companyRest
  rw [punctSub_append, punctSub_allSpace sp hsp,
    splitWs_append_allSpace (punctSub u) sp hsp]

lemma strip_chain_append (F : List Char → List Char) (m : List Char)
    (hmne : m ≠ []) (hrfix : rstripWs m = m)
    (habs : ∀ u, F (u ++ m) = F u)
    (hspabs : ∀ sp, allSpace sp = true → ∀ u, F (u ++ sp) = F u)
    (hconc : F (pyStrip m) = []) (hnil : F [] = [])
    (x : List Char) :
    F (pyStrip (x ++ m)) = F (pyStrip x) := by
  by_cases hx : lstripWs x = []
  · have h1 : lstripWs (x ++ m) = lstripWs m := by
      unfold lstripWs at hx ⊢
      exact dropWhile_append_all pyIsSpace x m (List.dropWhile_eq_nil_iff.mp hx)
    have hps : pyStrip (x ++ m) = pyStrip m := by
      unfold pyStrip
      rw [h1]
    have hx0 : pyStrip x = [] := by
      unfold pyStrip
      rw [hx]
      rfl
    rw [hps, hconc, hx0, hnil]
  · have h1 : lstripWs (x ++ m) = lstripWs x ++ m := lstripWs_append_ne x m hx
    have h2 : pyStrip (x ++ m) = lstripWs x ++ m := by
      unfold pyStrip
      rw [h1]
      exact rstripWs_fix_append (lstripWs x) m hmne hrfix
    obtain ⟨sp, hspA, hdec⟩ := lstrip_eq_strip_append x
    rw [h2, hdec, habs (pyStrip x ++ sp), hspabs sp hspA (pyStrip x)]

lemma normalize_title_append (M : List Char) (hmne : pyLower M ≠ [])
    (hrfix : rstripWs (pyLower M) = pyLower M)
    (hd : DistribP seniorityStripList (pyLower M))
    (hsp : allSpace (stripSeniority (pyLower M)) = true)
    (hconc : titleRest (pyStrip (pyLower M)) = [])
    (t : List Char) :
    normalize_title (t ++ M) = normalize_title t := by
  have hx : pyLower (t ++ M) = pyLower t ++ pyLower M := by
    unfold pyLower
    exact List.map_append _ t M
  show titleRest (pyStrip (pyLower (t ++ M))) = titleRest (pyStrip (pyLower t))
  rw [hx]
  exact strip_chain_append titleRest (pyLower M) hmne hrfix
    (titleRest_append (pyLower M) hd hsp)
    titleRest_append_allSpace hconc (by decide) (pyLower t)

lemma normalize_company_append (M : List Char) (hmne : pyLower M ≠ [])
    (hrfix : rstripWs (pyLower M) = pyLower M)
    (hpt : punctSub (pyLower M) = pyLower M)
    (c0 : Char) (m0 : List Char) (htl : pyLower M = c0 :: m0)
    (hc0 : pyIsSpace c0 = true)
    (hkill : (splitWs m0).filter (fun w => !companySuffixList.contains w) = [])
    (hconc : companyRest (pyStrip (pyLower M)) = [])
    (c : List Char) :
    normalize_company (c ++ M) = normalize_company c := by
  have hx : pyLower (c ++ M) = pyLower c ++ pyLower M := by
    unfold pyLower
    exact List.map_append _ c M
  show companyRest (pyStrip (pyLower (c ++ M))) = companyRest (pyStrip (pyLower c))
  rw [hx]
  exact strip_chain_append companyRest (pyLower M) hmne hrfix
    (companyRest_append (pyLower M) hpt c0 m0 htl hc0 hkill)
    companyRest_append_allSpace hconc (by decide) (pyLower c)

lemma pyStrip_pad (a b x : List Char) (ha : allSpace a = true) (hb : allSpace b = true) :
    pyStrip (a ++ x ++ b) = pyStrip x := by
  rw [List.append_assoc]
  unfold pyStrip
  rw [lstripWs_append_all a (x ++ b) ha]
  by_cases hx : lstripWs x = []
  · have h2 : lstripWs (x ++ b) = lstripWs b := by
      unfold lstripWs at hx ⊢
      exact dropWhile_append_all pyIsSpace x b (List.dropWhile_eq_nil_iff.mp hx)
    rw [h2, lstripWs_allSpace b hb, hx]
  · rw [lstripWs_append_ne x b hx]
    exact rstripWs_append_allSpace (lstripWs x) b hb

/-! ## Theorems for the claims -/

/-- C3: for every source row with auto_disable_on_block true and a zero
block counter (and currently allowed), the first two report_block calls
leave it allowed, the third sets is_allowed false with
consecutive_blocks 3, and can_scrape on the resulting row returns
false. -/
theorem c3_compliance_kill_switch (s : SourceRow) (sc1 sc2 sc3 t1 t2 t3 : Nat)
    (hauto : s.auto_disable_on_block = true)
    (hblocks : s.consecutive_blocks = 0)
    (hallowed : s.is_allowed = true) :
    (report_block s sc1 t1).is_allowed = true ∧
    (report_block (report_block s sc1 t1) sc2 t2).is_allowed = true ∧
    (report_block (report_block (report_block s sc1 t1) sc2 t2) sc3 t3).is_allowed = false ∧
    (report_block (report_block (report_block s sc1 t1) sc2 t2) sc3 t3).consecutive_blocks = 3 ∧
    can_scrape (some (report_block (report_block (report_block s sc1 t1) sc2 t2) sc3 t3)) = false := by
  obtain ⟨ia, ro, ad, cb, lb⟩ := s
  simp only at hauto hblocks hallowed
  subst hauto hblocks hallowed
  simp [report_block, can_scrape, BLOCK_THRESHOLD]

/-- Witness for the compliance kill-switch theorem at a concrete row. -/
theorem c3_witness :
    ((⟨true, true, true, 0, none⟩ : SourceRow).auto_disable_on_block = true ∧
     (⟨true, true, true, 0, none⟩ : SourceRow).consecutive_blocks = 0 ∧
     (⟨true, true, true, 0, none⟩ : SourceRow).is_allowed = true) ∧
    ((report_block (report_block (report_block ⟨true, true, true, 0, none⟩ 429 1) 429 2) 429 3).is_allowed = false ∧
     can_scrape (some (report_block (report_block (report_block ⟨true, true, true, 0, none⟩ 429 1) 429 2) 429 3)) = false) :=
  ⟨⟨rfl, rfl, rfl⟩,
   ⟨(c3_compliance_kill_switch ⟨true, true, true, 0, none⟩ 429 429 429 1 2 3 rfl rfl rfl).2.2.1,
    (c3_compliance_kill_switch ⟨true, true, true, 0, none⟩ 429 429 429 1 2 3 rfl rfl rfl).2.2.2.2⟩⟩

/-- C8: a database error during the compliance pre-check resolves to
false (fail closed), and an error-free lookup behaves as can_scrape. -/
theorem c8_pre_check_fail_closed :
    (∀ err : List Char, preCheck (Except.error err) = false) ∧
    (∀ row : Option SourceRow, preCheck (Except.ok row) = can_scrape row) :=
  ⟨fun _ => rfl, fun _ => rfl⟩

/-- C4: starting from a fresh breaker, the state is CLOSED strictly below
the failure threshold, OPEN after exactly failure_threshold consecutive
failed calls; while open and before the recovery timeout every call is
rejected with a circuit-open result carrying the retry-after hint and
leaves the state untouched (the wrapped operation is never consulted:
the outcome argument b is arbitrary); and a successful call after the
recovery timeout yields state CLOSED with zero failures. -/
theorem c4_circuit_breaker_contract (ft : Nat) (rt : ℚ) (tau : Nat → ℚ) (T now : ℚ)
    (hft : 1 ≤ ft) (hT : rt ≤ T - tau (ft - 1)) (hnow : now - tau (ft - 1) < rt) :
    (∀ i, i < ft → (cbFailN ft rt tau i).state = .closed) ∧
    (cbFailN ft rt tau ft).state = .opened ∧
    (∀ b, cbCall ft rt (cbFailN ft rt tau ft) now b =
      (.circuitOpen (rt - (now - tau (ft - 1))), cbFailN ft rt tau ft)) ∧
    (cbCall ft rt (cbFailN ft rt tau ft) T true).2.state = .closed ∧
    (cbCall ft rt (cbFailN ft rt tau ft) T true).2.failureCount = 0 := by
  have hftne : ft ≠ 0 := by omega
  have hopen : cbFailN ft rt tau ft =
      ⟨.opened, ft, tau (ft - 1), 0⟩ := by
    rw [cbFailN_spec ft rt tau ft le_rfl]
    simp [hftne]
  refine ⟨?_, ?_, ?_, ?_, ?_⟩
  · intro i hi
    rw [cbFailN_spec ft rt tau i (Nat.le_of_lt hi)]
    by_cases hi0 : i = 0
    · simp [hi0]
    · have : ¬ ft ≤ i := by omega
      simp [hi0, this]
  · rw [hopen]
  · intro b
    rw [hopen]
    have hsp : cbStateProp rt ⟨.opened, ft, tau (ft - 1), 0⟩ now =
        (.opened, ⟨.opened, ft, tau (ft - 1), 0⟩) := by
      rw [cbStateProp, if_neg]
      rintro ⟨-, h⟩
      exact absurd h (not_le.mpr hnow)
    simp only [cbCall, hsp]
    have hmax : max (rt - (now - tau (ft - 1))) 0 = rt - (now - tau (ft - 1)) :=
      max_eq_left (by linarith)
    simp [hmax]
  · rw [hopen]
    have hsp : cbStateProp rt ⟨.opened, ft, tau (ft - 1), 0⟩ T =
        (.halfOpen, ⟨.halfOpen, ft, tau (ft - 1), 0⟩) := by
      rw [cbStateProp, if_pos ⟨rfl, hT⟩]
    simp only [cbCall, hsp]
    simp [cbOnSuccess]
  · rw [hopen]
    have hsp : cbStateProp rt ⟨.opened, ft, tau (ft - 1), 0⟩ T =
        (.halfOpen, ⟨.halfOpen, ft, tau (ft - 1), 0⟩) := by
      rw [cbStateProp, if_pos ⟨rfl, hT⟩]
    simp only [cbCall, hsp]
    simp [cbOnSuccess]

/-- Witness for the circuit breaker theorem: threshold 2, timeout 1,
failures at times 0 and 1, probe at time 5, rejected call at time 3/2. -/
theorem c4_witness :
    (1 ≤ 2 ∧ (1 : ℚ) ≤ 5 - (fun i => (i : ℚ)) (2 - 1) ∧
      (3/2 : ℚ) - (fun i => (i : ℚ)) (2 - 1) < 1) ∧
    ((cbFailN 2 1 (fun i => (i : ℚ)) 2).state = .opened ∧
     (cbCall 2 1 (cbFailN 2 1 (fun i => (i : ℚ)) 2) 5 true).2.state = .closed ∧
     (cbCall 2 1 (cbFailN 2 1 (fun i => (i : ℚ)) 2) 5 true).2.failureCount = 0) :=
  ⟨⟨by norm_num, by norm_num, by norm_num⟩,
   ⟨(c4_circuit_breaker_contract 2 1 (fun i => (i : ℚ)) 5 (3/2)
       (by norm_num) (by norm_num) (by norm_num)).2.1,
    (c4_circuit_breaker_contract 2 1 (fun i => (i : ℚ)) 5 (3/2)
       (by norm_num) (by norm_num) (by norm_num)).2.2.2.1,
    (c4_circuit_breaker_contract 2 1 (fun i => (i : ℚ)) 5 (3/2)
       (by norm_num) (by norm_num) (by norm_num)).2.2.2.2⟩⟩

/-- C1 counterexample: the invariant holds of the one-row state, but
upsert_job on a repeated sighting of the deduplicated hash re-activates
the row without clearing duplicate_of, so the invariant is not preserved
by every repository operation. -/
theorem c1_counterexample :
    DupInactiveInv c1db ∧ ¬ DupInactiveInv (upsert_job c1db c1rec 5).2 := by
  decide

/-- C1 amended: mark_duplicate always preserves invariant (iii), and
upsert_job preserves it provided no existing row with the upserted hash
carries a duplicate_of pointer; re-upserting a previously deduplicated
row violates it. -/
theorem c1_repository_invariant_amended (db : List JobRow) (rec : JobInsert)
    (now : Nat) (h c : List Char) (hinv : DupInactiveInv db)
    (hclean : ∀ r ∈ db, r.hash = rec.hash → r.duplicate_of = none) :
    DupInactiveInv (mark_duplicate db h c) ∧ DupInactiveInv (upsert_job db rec now).2 := by
  constructor
  · intro r' hr'
    rw [mark_duplicate] at hr'
    obtain ⟨r, hr, hfr⟩ := List.mem_map.mp hr'
    by_cases hh : r.hash == h
    · rw [if_pos hh] at hfr
      intro _
      rw [← hfr]
    · rw [if_neg hh] at hfr
      rw [← hfr]
      exact hinv r hr
  · rw [upsert_job]
    by_cases hex : db.any (fun r => r.hash == rec.hash)
    · rw [if_pos hex]
      intro r' hr'
      obtain ⟨r, hr, hfr⟩ := List.mem_map.mp hr'
      by_cases hh : r.hash == rec.hash
      · rw [if_pos hh] at hfr
        intro hdup
        exfalso
        apply hdup
        rw [← hfr]
        exact hclean r hr (by simpa using hh)
      · rw [if_neg hh] at hfr
        rw [← hfr]
        exact hinv r hr
    · rw [if_neg hex]
      intro r' hr'
      rcases List.mem_append.mp hr' with hold | hnew
      · exact hinv r' hold
      · have : r' = newJobRow rec now := by simpa using hnew
        rw [this]
        intro hdup
        exact absurd rfl hdup

/-- Witness for the amended C1 theorem at a concrete clean state. -/
theorem c1_witness :
    (DupInactiveInv c1dbW ∧ (∀ r ∈ c1dbW, r.hash = c1recW.hash → r.duplicate_of = none)) ∧
    (DupInactiveInv (mark_duplicate c1dbW "b".data "z".data) ∧
     DupInactiveInv (upsert_job c1dbW c1recW 7).2) :=
  ⟨⟨by decide, by decide⟩,
   c1_repository_invariant_amended c1dbW c1recW 7 "b".data "z".data (by decide) (by decide)⟩

/-- C2 counterexample: find_fuzzy_duplicate returns the hash of the
first matching row in table order, here the row with first_seen_at 10,
even though an active matching row from another source with
first_seen_at 5 exists — so the oldest active row is not what is
returned. -/
theorem c2_counterexample :
    find_fuzzy_duplicate c2db "f".data "x".data = some "a".data ∧
    (∀ r ∈ c2db, r.hash = "b".data →
      r.fuzzy_hash = some "f".data ∧ r.is_active = true ∧ r.source ≠ "x".data ∧
      ∀ r2 ∈ c2db, r2.hash = "a".data → r.first_seen_at < r2.first_seen_at) := by
  decide

/-- C2 amended: a returned canonical hash always belongs to some row
with the requested fuzzy hash, is_active true and a different source
(rows of the requesting source are ignored), and when every active row
with that fuzzy hash has the requesting source the lookup returns none;
the query has no ORDER BY, so it is the first matching row in table
order, not necessarily the oldest. -/
theorem c2_find_fuzzy_duplicate_spec :
    (∀ (db : List JobRow) (fh src h : List Char),
      find_fuzzy_duplicate db fh src = some h →
      ∃ r ∈ db, r.hash = h ∧ r.fuzzy_hash = some fh ∧ r.source ≠ src ∧ r.is_active = true) ∧
    (∀ (db : List JobRow) (fh src : List Char),
      (∀ r ∈ db, r.fuzzy_hash = some fh → r.is_active = true → r.source = src) →
      find_fuzzy_duplicate db fh src = none) := by
  constructor
  · intro db fh src h hfind
    rw [find_fuzzy_duplicate] at hfind
    cases hfq : db.find? (fun r => r.fuzzy_hash == some fh && r.source != src && r.is_active) with
    | none => rw [hfq] at hfind; exact absurd hfind (by simp)
    | some r =>
      rw [hfq] at hfind
      have hhash : r.hash = h := by simpa using hfind
      have hp := List.find?_some hfq
      have hmem := List.mem_of_find?_eq_some hfq
      simp only [Bool.and_eq_true, beq_iff_eq, bne_iff_ne] at hp
      exact ⟨r, hmem, hhash, hp.1.1, hp.1.2, hp.2⟩
  · intro db fh src hall
    rw [find_fuzzy_duplicate]
    have hnone : db.find?
        (fun r => r.fuzzy_hash == some fh && r.source != src && r.is_active) = none := by
      rw [List.find?_eq_none]
      intro r hr hp
      simp only [Bool.and_eq_true, beq_iff_eq, bne_iff_ne] at hp
      exact hp.1.2 (hall r hr hp.1.1 hp.2)
    rw [hnone]
    rfl

/-- Witness for the C2 theorem: both conjuncts applied at the concrete
two-row database. -/
theorem c2_witness :
    (∃ r ∈ c2db, r.hash = "a".data ∧ r.fuzzy_hash = some "f".data ∧
      r.source ≠ "x".data ∧ r.is_active = true) ∧
    find_fuzzy_duplicate c2db "zz".data "s1".data = none :=
  ⟨c2_find_fuzzy_duplicate_spec.1 c2db "f".data "x".data "a".data (by decide),
   c2_find_fuzzy_duplicate_spec.2 c2db "zz".data "s1".data (by decide)⟩

/-- C9 counterexample: fetch_rss receives a 404 (a non-429 4xx) on the
first attempt and a 200 on the second; it sleeps once and returns the
second body, so a non-429 4xx does not cause an immediate failure return
without retry in fetch_rss. -/
theorem c9_counterexample : fetch_rss c9outcomes 3 1 = (some "ok".data, [1]) := by
  simp [fetch_rss, rssGo, c9outcomes, pow2Q]

/-- A stream of retryable responses through attempt mr drives
fetch_with_retry to exhaustion with the full back-off trace. -/
lemma fwr_all_retry (outcomes : Nat → FetchOutcome) (mr : Nat) (b d : ℚ)
    (hall : ∀ i, i ≤ mr → RetryOutcome (outcomes i)) :
    ∀ remaining attempt, remaining + attempt = mr + 1 →
      fwrGo outcomes mr b d remaining attempt =
        (none, (List.range' attempt (mr - attempt)).map (fun a => min (b * pow2Q a) d)) := by
  intro remaining
  induction remaining with
  | zero =>
    intro attempt h
    have hz : mr - attempt = 0 := by omega
    simp [fwrGo, hz]
  | succ n ih =>
    intro attempt h
    have hat : attempt ≤ mr := by omega
    obtain ⟨st, text, js, ho, hmem⟩ := hall attempt hat
    simp only [fwrGo, ho]
    have hcont : RETRY_STATUSES.contains st = true := by
      exact List.elem_iff.mpr hmem
    by_cases hlt : attempt < mr
    · rw [if_pos ⟨hcont, hlt⟩]
      rw [ih (attempt + 1) (by omega)]
      have hr : mr - attempt = (mr - (attempt + 1)) + 1 := by omega
      rw [hr, List.range'_succ]
      simp
    · have heq : attempt = mr := by omega
      rw [if_neg (by rintro ⟨-, h2⟩; omega)]
      have hdis : st = 429 ∨ st = 500 ∨ st = 502 ∨ st = 503 ∨ st = 504 := by
        simpa [RETRY_STATUSES] using hmem
      rw [if_pos (by omega : st ≠ 200)]
      rw [if_neg (by rintro ⟨-, hb, hc⟩; omega)]
      rw [if_pos heq]
      have hz : mr - attempt = 0 := by omega
      rw [hz]
      simp

/-- C9 amended: for fetch_with_retry a first response with a non-429
4xx status returns none immediately with no sleep, and retryable
statuses are retried with capped exponential back-off through
max_retries before giving up; fetch_rss however retries every non-200
status (including non-429 4xx) after a back-off sleep. -/
theorem c9_fetch_retry_policy_amended :
    (∀ (outcomes : Nat → FetchOutcome) (mr : Nat) (b d : ℚ) (st : Nat)
       (text : List Char) (js : Option (List Char)),
      outcomes 0 = .response st text js → 400 ≤ st → st < 500 → st ≠ 429 →
      fetch_with_retry outcomes mr b d = (none, [])) ∧
    (∀ (outcomes : Nat → FetchOutcome) (mr : Nat) (b d : ℚ),
      (∀ i, i ≤ mr → RetryOutcome (outcomes i)) →
      fetch_with_retry outcomes mr b d =
        (none, (List.range mr).map (fun a => min (b * pow2Q a) d))) ∧
    (∀ (outcomes : Nat → FetchOutcome) (mr : Nat) (b : ℚ) (st : Nat)
       (text : List Char) (js : Option (List Char)) (text2 : List Char)
       (js2 : Option (List Char)),
      st ≠ 200 → 1 ≤ mr →
      outcomes 0 = .response st text js → outcomes 1 = .response 200 text2 js2 →
      fetch_rss outcomes mr b = (some text2, [b])) := by
  refine ⟨?_, ?_, ?_⟩
  · intro outcomes mr b d st text js h0 h4 h5 h49
    show fwrGo outcomes mr b d (mr + 1) 0 = (none, [])
    simp only [fwrGo, h0]
    have hmem : st ∉ RETRY_STATUSES := by
      simp only [RETRY_STATUSES, List.mem_cons, List.not_mem_nil, or_false]
      omega
    rw [if_neg (by rintro ⟨hc, -⟩; exact hmem (List.elem_iff.mp hc))]
    rw [if_pos (by omega : st ≠ 200)]
    rw [if_pos ⟨h4, h5, h49⟩]
  · intro outcomes mr b d hall
    rw [fetch_with_retry, fwr_all_retry outcomes mr b d hall (mr + 1) 0 (by omega)]
    rw [List.range_eq_range']
    simp
  · intro outcomes mr b st text js text2 js2 h200 hmr h0 h1
    obtain ⟨k, rfl⟩ : ∃ k, mr = k + 1 := ⟨mr - 1, by omega⟩
    show rssGo outcomes (k + 1) b (k + 1 + 1) 0 = (some text2, [b])
    simp only [rssGo, h0, h1, h200]
    simp [pow2Q]

/-- C6 counterexample: on the scenario record the normalizer leaves
salary_currency unset; the claimed output salary_currency = EUR is
false because normalize_salary never writes that field. -/
theorem c6_counterexample :
    (normalize_salary c6rec).salary_currency ≠ some "EUR".data := by
  intro h
  rw [show (normalize_salary c6rec).salary_currency = none from rfl] at h
  exact Option.noConfusion h

/-- C6 amended: the scenario record yields salary_min_chf 76800 and
salary_max_chf 96000 (the detected EUR rate 24/25 is used for the
conversion), while salary_currency stays None. -/
theorem c6_salary_conversion_amended :
    (normalize_salary c6rec).salary_min_chf = some 76800 ∧
    (normalize_salary c6rec).salary_max_chf = some 96000 ∧
    (normalize_salary c6rec).salary_currency = none := by
  refine ⟨?_, ?_, rfl⟩
  · show (salaryCore none none (some c6str) none (some "yearly".data)).1 = some 76800
    rw [c6_core]
  · show (salaryCore none none (some c6str) none (some "yearly".data)).2 = some 96000
    rw [c6_core]

/-- C5 counterexample: a record carrying only salary_min_chf = 5000 and
a monthly period is rescaled again by a second normalize pass (60000
becomes 720000), so normalize is not idempotent. -/
theorem c5_counterexample :
    normalize noDetect (normalize noDetect c5rec) ≠ normalize noDetect c5rec := by
  have ha1 : pyIntQ ((5000 : ℚ) * 1 * 12) = 60000 := by
    rw [show ((5000 : ℚ) * 1 * 12) = 60000 by norm_num, pyIntQ, if_pos (by norm_num)]
    norm_num
  have ha2 : pyIntQ ((60000 : ℚ) * 1 * 12) = 720000 := by
    rw [show ((60000 : ℚ) * 1 * 12) = 720000 by norm_num, pyIntQ, if_pos (by norm_num)]
    norm_num
  have hsc1 : salaryCore (some 5000) none none none (some "monthly".data) =
      (some 60000, none) :=
    salaryCore_min_monthly 5000 60000 (by norm_num) ha1
  have hsc2 : salaryCore (some 60000) none none none (some "monthly".data) =
      (some 720000, none) :=
    salaryCore_min_monthly 60000 720000 (by norm_num) ha2
  have hns : normalize_salary c5rec = { c5rec with salary_min_chf := some 60000 } := by
    simp only [normalize_salary, show c5rec.salary_min_chf = some 5000 from rfl,
      show c5rec.salary_max_chf = none from rfl,
      show c5rec.salary_original = none from rfl,
      show c5rec.salary_currency = none from rfl,
      show c5rec.salary_period = some "monthly".data from rfl, hsc1]
  have h1 : normalize noDetect c5rec = { c5rec with salary_min_chf := some 60000 } := by
    rw [normalize, hns]
    rfl
  have hns2 : normalize_salary { c5rec with salary_min_chf := some 60000 } =
      { c5rec with salary_min_chf := some 720000 } := by
    simp only [normalize_salary,
      show c5rec.salary_max_chf = none from rfl,
      show c5rec.salary_original = none from rfl,
      show c5rec.salary_currency = none from rfl,
      show c5rec.salary_period = some "monthly".data from rfl, hsc2]
  have h2 : normalize noDetect { c5rec with salary_min_chf := some 60000 } =
      { c5rec with salary_min_chf := some 720000 } := by
    rw [normalize, hns2]
    rfl
  rw [h1, h2]
  intro h
  have hq := congrArg JobRec.salary_min_chf h
  norm_num at hq

/-- C5 amended: normalize is idempotent on every record for which the
salary step either leaves the two CHF fields unchanged or sets both to
truthy (nonzero) values; a record normalized to a single-sided or
zeroed salary can be reparsed or rescaled on the second pass. -/
theorem c5_normalize_idempotent_amended
    (det : List Char → Option (List (List Char × ℚ))) (r : JobRec)
    (H : (truthyQ (salaryCore r.salary_min_chf r.salary_max_chf r.salary_original
            r.salary_currency r.salary_period).1 = true ∧
          truthyQ (salaryCore r.salary_min_chf r.salary_max_chf r.salary_original
            r.salary_currency r.salary_period).2 = true) ∨
         salaryCore r.salary_min_chf r.salary_max_chf r.salary_original
           r.salary_currency r.salary_period = (r.salary_min_chf, r.salary_max_chf)) :
    normalize det (normalize det r) = normalize det r := by
  obtain ⟨t, d, ds, et, lg, se, ct, mn, mx, so, sc, sp⟩ := r
  dsimp only at H
  have hs := salaryCore_stable mn mx so sc sp H
  simp only [normalize, normalize_salary, detect_language, infer_seniority,
    infer_contract_type, JobRec.mk.injEq, langStep_stable, senStep_stable,
    ctStep_stable, hs, and_self, and_true, true_and]

/-- Witness for the amended C5 theorem: the empty record satisfies the
unchanged-salary condition and is a normalize fixpoint. -/
theorem c5_witness :
    (salaryCore emptyRec.salary_min_chf emptyRec.salary_max_chf emptyRec.salary_original
       emptyRec.salary_currency emptyRec.salary_period =
      (emptyRec.salary_min_chf, emptyRec.salary_max_chf)) ∧
    normalize noDetect (normalize noDetect emptyRec) = normalize noDetect emptyRec :=
  ⟨rfl, c5_normalize_idempotent_amended noDetect emptyRec (Or.inr rfl)⟩

/-- Witness for the C9 theorem: all three conjuncts applied at concrete
attempt streams. -/
theorem c9_witness :
    fetch_with_retry c9outcomes 3 1 30 = (none, []) ∧
    fetch_with_retry c9retry 1 1 30 =
      (none, (List.range 1).map (fun a => min ((1 : ℚ) * pow2Q a) 30)) ∧
    fetch_rss c9outcomes 3 1 = (some "ok".data, [(1 : ℚ)]) :=
  ⟨c9_fetch_retry_policy_amended.1 c9outcomes 3 1 30 404 "nope".data none rfl
     (by omega) (by omega) (by omega),
   c9_fetch_retry_policy_amended.2.1 c9retry 1 1 30
     (fun i _ => ⟨500, [], none, rfl, by decide⟩),
   c9_fetch_retry_policy_amended.2.2 c9outcomes 3 1 404 "nope".data none
     "ok".data none (by omega) (by omega) rfl rfl⟩

set_option maxRecDepth 1000000 in
/-- C7 counterexample: appending the legal suffix " AG" to the TITLE, or
the gender marker " (m/f/d)" to the COMPANY, changes the fuzzy hash, so
the claimed invariance for every combination of marker and field fails.
The title normalization strips gender markers but not legal suffixes,
and the company normalization strips legal suffixes but not gender
markers. -/
theorem c7_counterexample :
    compute_fuzzy_hash ("Engineer".data ++ " AG".data) "Acme".data ≠
      compute_fuzzy_hash "Engineer".data "Acme".data ∧
    compute_fuzzy_hash "Engineer".data ("Acme".data ++ " (m/f/d)".data) ≠
      compute_fuzzy_hash "Engineer".data "Acme".data := by
  constructor
  · decide
  · decide

/-- C7 (amended): the fuzzy hash is invariant under appending a gender
marker (" (m/f/d)", " (m/w/d)", " (all genders)") to the title and
under appending a legal suffix (" AG", " GmbH", " Ltd") to the company;
the other two combinations of the original claim are refuted by the
counterexample. -/
theorem c7_fuzzy_hash_stability_amended (t c m s : List Char)
    (hm : m ∈ genderMarkers) (hs : s ∈ legalSuffixes) :
    compute_fuzzy_hash (t ++ m) c = compute_fuzzy_hash t c ∧
    compute_fuzzy_hash t (c ++ s) = compute_fuzzy_hash t c := by
  constructor
  · have hm3 : m = " (m/f/d)".data ∨ m = " (m/w/d)".data ∨ m = " (all genders)".data := by
      have hg : genderMarkers = [" (m/f/d)".data, " (m/w/d)".data, " (all genders)".data] := rfl
      rw [hg] at hm
      simpa using hm
    have ht : normalize_title (t ++ m) = normalize_title t := by
      rcases hm3 with rfl | rfl | rfl
      · exact normalize_title_append _ (by decide) (by decide) (by decide) (by decide)
          (by decide) t
      · exact normalize_title_append _ (by decide) (by decide) (by decide) (by decide)
          (by decide) t
      · exact normalize_title_append _ (by decide) (by decide) (by decide) (by decide)
          (by decide) t
    unfold compute_fuzzy_hash
    rw [ht]
  · have hs3 : s = " AG".data ∨ s = " GmbH".data ∨ s = " Ltd".data := by
      have hg : legalSuffixes = [" AG".data, " GmbH".data, " Ltd".data] := rfl
      rw [hg] at hs
      simpa using hs
    have hc : normalize_company (c ++ s) = normalize_company c := by
      rcases hs3 with rfl | rfl | rfl
      · exact normalize_company_append _ (by decide) (by decide) (by decide)
          ' ' "ag".data (by decide) (by decide) (by decide) (by decide) c
      · exact normalize_company_append _ (by decide) (by decide) (by decide)
          ' ' "gmbh".data (by decide) (by decide) (by decide) (by decide) c
      · exact normalize_company_append _ (by decide) (by decide) (by decide)
          ' ' "ltd".data (by decide) (by decide) (by decide) (by decide) c
    unfold compute_fuzzy_hash
    rw [hc]

/-- Witness for the C7 theorem: both invariances at a concrete title,
company, gender marker and legal suffix. -/
theorem c7_witness :
    compute_fuzzy_hash ("Dev".data ++ " (m/f/d)".data) "Acme".data =
        compute_fuzzy_hash "Dev".data "Acme".data ∧
    compute_fuzzy_hash "Dev".data ("Acme".data ++ " AG".data) =
        compute_fuzzy_hash "Dev".data "Acme".data :=
  c7_fuzzy_hash_stability_amended "Dev".data "Acme".data " (m/f/d)".data " AG".data
    (by decide) (by decide)

/-- C10: compute_hash is invariant under leading and trailing runs of
whitespace around any of its three arguments, because each argument is
stripped before it enters the hashed string. -/
theorem c10_compute_hash_strip_invariant (t c u a1 b1 a2 b2 a3 b3 : List Char)
    (h1 : allSpace a1 = true) (h2 : allSpace b1 = true)
    (h3 : allSpace a2 = true) (h4 : allSpace b2 = true)
    (h5 : allSpace a3 = true) (h6 : allSpace b3 = true) :
    compute_hash (a1 ++ t ++ b1) (a2 ++ c ++ b2) (a3 ++ u ++ b3) =
      compute_hash t c u := by
  unfold compute_hash
  rw [pyStrip_pad a1 b1 t h1 h2, pyStrip_pad a2 b2 c h3 h4, pyStrip_pad a3 b3 u h5 h6]

/-- Witness for the C10 theorem: single-space padding around each of the
three arguments. -/
theorem c10_witness :
    compute_hash (" ".data ++ "T".data ++ " ".data) (" ".data ++ "C".data ++ " ".data)
        (" ".data ++ "u".data ++ " ".data) = compute_hash "T".data "C".data "u".data :=
  c10_compute_hash_strip_invariant "T".data "C".data "u".data " ".data " ".data
    " ".data " ".data " ".data " ".data
    (by decide) (by decide) (by decide) (by decide) (by decide) (by decide)

end SwissJob
